import Mathlib

/-!
# M2XStreamClient: requests written and responses parsed

A shallow embedding of `src/M2XStreamClient/M2XStreamClient.cpp`.

* Bytes are natural numbers (`0..255`); a C string is the list of its bytes
  before the terminating NUL, and `str[i]` is `cstrAt str i` (NUL past the end).
  Where the code divides a plain `char` (`print_encoded_string`), the value of
  the `char` is `charValue`, which depends on whether plain `char` is signed on
  the target (`Codes.charSigned`).
* The Arduino `Client` is a record: the bytes readable now (`rx`), the bursts
  that will still arrive (`pending`; the peer closes once the last one has been
  delivered), the bytes written (`tx`), the bytes handed out by `read()`
  (`consumed`) and the log of `connect`/`flush`/`stop` calls.
* Time passes where the program waits: at `_idlefunc()` / `delay(200)`, and
  between two polls of the body loops that have no idle call.  One wait
  delivers the next burst (`Client.idle`); a burst may be empty.
* `while (true)` loops take fuel; every public function supplies the fuel from
  the client state and returns `none` only if that fuel ran out.
-/

namespace M2X

/-! ## Constants of the absent header `M2XStreamClient.h` and of the target -/

/-- The integer constants declared in `M2XStreamClient.h`, which is not part of
the sources, and the one property of the compiler the code depends on; they are
taken as parameters. -/
structure Codes where
  E_OK : Int
  E_NOCONNECTION : Int
  E_DISCONNECTED : Int
  E_NOTREACHABLE : Int
  E_INVALID : Int
  E_JSON_INVALID : Int
  E_BUFFER_TOO_SMALL : Int
  kDefaultM2XPort : Int
  USER_AGENT : List Nat
  /-- whether plain `char` is a signed type on the target, as it is with
  avr-gcc, the stock Arduino toolchain -/
  charSigned : Bool

/-- The members of `M2XStreamClient` set by the constructor (the `Client` is
threaded separately, the idle function is `Client.idle`). -/
structure Config where
  key : List Nat
  case_insensitive : Bool
  host : List Nat
  port : Int

/-! ## The socket -/

/-- Calls on the socket that change the connection itself. -/
inductive SockCall where
  | connect
  | flush
  | stop
  deriving DecidableEq, Repr

/-- State of the Arduino `Client` object. -/
structure Client where
  /-- what `connect()` will answer -/
  connectOk : Bool
  /-- bytes buffered, readable now -/
  rx : List Nat
  /-- bursts still to arrive, in order; the peer closes after the last -/
  pending : List (List Nat)
  /-- bytes written so far -/
  tx : List Nat
  /-- bytes returned by `read()` so far -/
  consumed : List Nat
  /-- log of connection-level calls, oldest first -/
  calls : List SockCall
  deriving DecidableEq, Repr

namespace Client

/-- `client.connect(host, port)`. -/
def connect (c : Client) : Bool × Client :=
  (c.connectOk, { c with calls := c.calls ++ [SockCall.connect] })

/-- `client.available()`. -/
def available (c : Client) : Bool := !c.rx.isEmpty

/-- `client.connected()`: the peer has not closed yet. -/
def connected (c : Client) : Bool := !c.pending.isEmpty

/-- `client.read()` on a socket with a byte available. -/
def read (c : Client) (ch : Nat) (rest : List Nat) : Client :=
  { c with rx := rest, consumed := c.consumed ++ [ch] }

/-- `_idlefunc()` or `delay(200)`: the next burst arrives. -/
def idle (c : Client) : Client :=
  match c.pending with
  | [] => c
  | b :: rest => { c with rx := c.rx ++ b, pending := rest }

/-- `client.flush()`: drops what is buffered. -/
def flush (c : Client) : Client :=
  { c with rx := [], calls := c.calls ++ [SockCall.flush] }

/-- `client.stop()`. -/
def stop (c : Client) : Client :=
  { c with rx := [], pending := [], calls := c.calls ++ [SockCall.stop] }

/-- `client.write(b)` through `Print`: one byte sent. -/
def write (c : Client) (b : Nat) : Client := { c with tx := c.tx ++ [b] }

/-- Everything the socket will still hand out, in order. -/
def remaining (c : Client) : List Nat := c.rx ++ c.pending.flatten

/-- The socket has been released: the log ends with `flush` then `stop`. -/
def released (c : Client) : Bool :=
  c.calls.reverse.take 2 == [SockCall.stop, SockCall.flush]

end Client

/-- `M2XStreamClient::close()`. -/
def close (c : Client) : Client := c.flush.stop

/-! ## Byte helpers -/

/-- `str[i]` of a C string: NUL at and past the end. -/
def cstrAt (str : List Nat) (i : Nat) : Nat := str.getD i 0

/-- `tolower` of the `ARDUINO_PLATFORM` / `MBED_PLATFORM` branch. -/
def tolower (ch : Int) : Int :=
  if ch ≥ 65 ∧ ch ≤ 90 then ch + 32 else ch

/-! ## waitForString -/

/-- The comparison of `waitForString`: `(str[currentIndex] == '*') || (cmp == 0)`. -/
def charMatches (cfg : Config) (ch p : Nat) : Bool :=
  let cmp : Int :=
    if cfg.case_insensitive then tolower (ch : Int) - tolower (p : Int)
    else (ch : Int) - (p : Int)
  p == 42 || cmp == 0

/-- Inner loop of `waitForString`, `while (_client->available())`, over the
buffered bytes: `(true, _, c)` when `return E_OK` was reached, otherwise
`(false, currentIndex, c)` when nothing is available any more. -/
def waitForStringAvail (cfg : Config) (str : List Nat) :
    List Nat → Client → Nat → Bool × Nat × Client
  | [], c, currentIndex => (false, currentIndex, c)
  | ch :: rest, c, currentIndex =>
    let c1 := c.read ch rest
    if charMatches cfg ch (cstrAt str currentIndex) then
      if cstrAt str (currentIndex + 1) == 0 then (true, currentIndex + 1, c1)
      else waitForStringAvail cfg str rest c1 (currentIndex + 1)
    else waitForStringAvail cfg str rest c1 0

/-- Outer `while (true)` of `waitForString`. -/
def waitForStringLoop (K : Codes) (cfg : Config) (str : List Nat) :
    Nat → Client → Nat → Option (Int × Client)
  | 0, _, _ => none
  | fuel + 1, c, currentIndex =>
    match waitForStringAvail cfg str c.rx c currentIndex with
    | (true, _, c1) => some (K.E_OK, c1)
    | (false, idx, c1) =>
      if !c1.connected then some (K.E_DISCONNECTED, close c1)
      else waitForStringLoop K cfg str fuel c1.idle idx

/-- `M2XStreamClient::waitForString`. -/
def waitForString (K : Codes) (cfg : Config) (str : List Nat) (c : Client) :
    Option (Int × Client) :=
  if cstrAt str 0 == 0 then some (K.E_OK, c)
  else waitForStringLoop K cfg str (c.pending.length + 1) c 0

/-! ## Response head -/

/-- An `int` holds 32 bits; arithmetic that leaves the range wraps around. -/
def wrapInt (x : Int) : Int := (x + 2147483648) % 4294967296 - 2147483648

/-- The pattern `"HTTP/*.* "`. -/
def statusPattern : List Nat := [72, 84, 84, 80, 47, 42, 46, 42, 32]

/-- The pattern `"Content-Length: "`. -/
def contentLengthPattern : List Nat :=
  [67, 111, 110, 116, 101, 110, 116, 45, 76, 101, 110, 103, 116, 104, 58, 32]

/-- The pattern `"\n\r\n"`. -/
def blankLinePattern : List Nat := [10, 13, 10]

/-- Inner loop of `readStatusCode` over the buffered bytes: `some code` once
the third byte has been read (three bytes cannot overflow an `int`). -/
def readStatusCodeAvail :
    List Nat → Client → Int → Nat → Option Int × Int × Nat × Client
  | [], c, responseCode, ret => (none, responseCode, ret, c)
  | ch :: rest, c, responseCode, ret =>
    let c1 := c.read ch rest
    let responseCode1 := responseCode * 10 + ((ch : Int) - 48)
    if ret + 1 == 3 then (some responseCode1, responseCode1, ret + 1, c1)
    else readStatusCodeAvail rest c1 responseCode1 (ret + 1)

/-- Second `while (true)` of `readStatusCode`. -/
def readStatusCodeLoop (K : Codes) (closeClient : Bool) :
    Nat → Client → Int → Nat → Option (Int × Client)
  | 0, _, _, _ => none
  | fuel + 1, c, responseCode, ret =>
    match readStatusCodeAvail c.rx c responseCode ret with
    | (some code, _, _, c1) => some (code, if closeClient then close c1 else c1)
    | (none, responseCode1, ret1, c1) =>
      if !c1.connected then
        some (K.E_DISCONNECTED, if closeClient then close c1 else c1)
      else readStatusCodeLoop K closeClient fuel c1.idle responseCode1 ret1

/-- `M2XStreamClient::readStatusCode`. -/
def readStatusCode (K : Codes) (cfg : Config) (closeClient : Bool) (c : Client) :
    Option (Int × Client) :=
  match waitForString K cfg statusPattern c with
  | none => none
  | some (ret, c1) =>
    if ret ≠ K.E_OK then some (ret, if closeClient then close c1 else c1)
    else readStatusCodeLoop K closeClient (c1.pending.length + 1) c1 0 0

/-- Inner loop of `readContentLength` over the buffered bytes: `some r` once a
carriage return or line feed has been read. -/
def readContentLengthAvail (K : Codes) :
    List Nat → Client → Int → Option Int × Int × Client
  | [], c, ret => (none, ret, c)
  | ch :: rest, c, ret =>
    let c1 := c.read ch rest
    if ch == 13 || ch == 10 then
      (some (if ret == 0 then K.E_INVALID else ret), ret, c1)
    else readContentLengthAvail K rest c1 (wrapInt (ret * 10 + ((ch : Int) - 48)))

/-- Second `while (true)` of `readContentLength`. -/
def readContentLengthLoop (K : Codes) :
    Nat → Client → Int → Option (Int × Client)
  | 0, _, _ => none
  | fuel + 1, c, ret =>
    match readContentLengthAvail K c.rx c ret with
    | (some r, _, c1) => some (r, c1)
    | (none, ret1, c1) =>
      if !c1.connected then some (K.E_DISCONNECTED, c1)
      else readContentLengthLoop K fuel c1.idle ret1

/-- `M2XStreamClient::readContentLength`. -/
def readContentLength (K : Codes) (cfg : Config) (c : Client) :
    Option (Int × Client) :=
  match waitForString K cfg contentLengthPattern c with
  | none => none
  | some (ret, c1) =>
    if ret ≠ K.E_OK then some (ret, c1)
    else readContentLengthLoop K (c1.pending.length + 1) c1 0

/-- `M2XStreamClient::skipHttpHeader`. -/
def skipHttpHeader (K : Codes) (cfg : Config) (c : Client) :
    Option (Int × Client) :=
  waitForString K cfg blankLinePattern c

/-! ## Body loops -/

/-- Results of `jsonlite_parser_tokenize` as far as the client tells them apart. -/
inductive jsonlite_result where
  | unknown
  | ok
  | end_of_stream
  | error
  deriving DecidableEq, Repr

/-- The jsonlite parser with the callbacks of one schema installed; jsonlite is
an external library, so the tokenizer is a parameter.  `init` is the parser
after `jsonlite_parser_init` and `jsonlite_parser_set_callback`. -/
structure Tokenizer (P : Type) where
  init : P
  tokenize : P → List Nat → jsonlite_result × P

/-- The chunk read `while ((i < BUF_LEN) && _client->available()) buf[i++] = read()`;
`buf` is the filled part of the buffer, so `i = buf.length`. -/
def readChunk (BUF_LEN : Nat) : List Nat → Client → List Nat → List Nat × Client
  | [], c, buf => (buf, c)
  | ch :: rest, c, buf =>
    if buf.length < BUF_LEN then readChunk BUF_LEN rest (c.read ch rest) (buf ++ [ch])
    else (buf, c)

/-- The loop `while (index < length)` shared, up to `BUF_LEN` and the callbacks,
by `readStreamValue` and `readLocation`, with the statements after it.  The
loop has no idle call: the next burst arrives between two polls. -/
def jsonBodyLoop {P : Type} (K : Codes) (T : Tokenizer P) (BUF_LEN : Nat) (length : Int) :
    Nat → Client → Int → P → jsonlite_result → Option (Int × Client × P)
  | 0, _, _, _, _ => none
  | fuel + 1, c, index, p, result =>
    if index < length then
      match readChunk BUF_LEN c.rx c [] with
      | (buf, c1) =>
        if !c1.connected && !c1.available && (index + (buf.length : Int) < length) then
          some (K.E_NOCONNECTION, close c1, p)
        else
          match T.tokenize p buf with
          | (result1, p1) =>
            if result1 ≠ jsonlite_result.ok ∧ result1 ≠ jsonlite_result.end_of_stream then
              some (K.E_JSON_INVALID, close c1, p1)
            else jsonBodyLoop K T BUF_LEN length fuel c1.idle (index + (buf.length : Int)) p1 result1
    else
      some (if result = jsonlite_result.ok then K.E_OK else K.E_JSON_INVALID, close c, p)

/-- Fuel for `jsonBodyLoop`: a pass reads a byte or receives a burst, or is the last. -/
def bodyFuel (c : Client) : Nat := c.remaining.length + c.pending.length + 1

/-- The body of `readStreamValue` and of the two-argument `readLocation`. -/
def readJsonBody {P : Type} (K : Codes) (cfg : Config) (T : Tokenizer P) (BUF_LEN : Nat)
    (c : Client) : Option (Int × Client × P) :=
  match readContentLength K cfg c with
  | none => none
  | some (length, c1) =>
    if length < 0 then some (length, close c1, T.init)
    else
      match skipHttpHeader K cfg c1 with
      | none => none
      | some (index, c2) =>
        if index ≠ K.E_OK then some (index, close c2, T.init)
        else jsonBodyLoop K T BUF_LEN length (bodyFuel c2) c2 0 T.init jsonlite_result.unknown

/-- `M2XStreamClient::readStreamValue` (`BUF_LEN = 64`). -/
def readStreamValue {P : Type} (K : Codes) (cfg : Config) (T : Tokenizer P) (c : Client) :
    Option (Int × Client × P) :=
  readJsonBody K cfg T 64 c

/-- `M2XStreamClient::readLocation(callback, context)`, the private overload
(`BUF_LEN = 40`). -/
def readLocationBody {P : Type} (K : Codes) (cfg : Config) (T : Tokenizer P) (c : Client) :
    Option (Int × Client × P) :=
  readJsonBody K cfg T 40 c

/-- Inner loop of the copy in `getTimestamp`,
`while ((index < length) && _client->available()) buffer[index++] = read()`. -/
def copyAvail (length : Int) :
    List Nat → Client → (Nat → Nat) → Nat → (Nat → Nat) × Nat × Client
  | [], c, buffer, index => (buffer, index, c)
  | ch :: rest, c, buffer, index =>
    if (index : Int) < length then
      copyAvail length rest (c.read ch rest) (Function.update buffer index ch) (index + 1)
    else (buffer, index, c)

/-- The loop `while (index < length)` of `getTimestamp` with the statements
after it: the returned value, the buffer and the socket. -/
def copyLoop (K : Codes) (status length : Int) :
    Nat → Client → (Nat → Nat) → Nat → Option (Int × (Nat → Nat) × Client)
  | 0, _, _, _ => none
  | fuel + 1, c, buffer, index =>
    if (index : Int) < length then
      match copyAvail length c.rx c buffer index with
      | (buffer1, index1, c1) =>
        if !c1.connected && ((index1 : Int) < length) then
          some (K.E_NOCONNECTION, buffer1, close c1)
        else copyLoop K status length fuel c1.idle buffer1 index1
    else some (status, buffer, close c)

/-! ## Request side -/

/-- The bytes of a string literal. -/
def bytes (s : String) : List Nat := s.toList.map Char.toNat

/-- A `Print` sink: what `write(byte)` does to it, with the count it returns. -/
structure Print (σ : Type) where
  write : σ → Nat → σ × Int

/-- The socket as a `Print`: every byte is sent and counted. -/
def clientPrint : Print Client := ⟨fun c b => (c.write b, 1)⟩

/-- Modelled from the spec: the class `NullPrint` of `_null_print` is declared in
the absent header; the spec calls it a byte-discarding sink, against which the
body formatter is run to count the bytes. -/
def nullPrint : Print Unit := ⟨fun _ _ => ((), 1)⟩

/-- `Print::print(const char*)`: writes each byte, returns the sum of the counts. -/
def Print.print {σ : Type} (P : Print σ) : σ → List Nat → σ × Int
  | s, [] => (s, 0)
  | s, b :: rest =>
    match P.write s b with
    | (s1, n) =>
      match Print.print P s1 rest with
      | (s2, m) => (s2, n + m)

/-- `Print::println(const char*)`. -/
def Print.println {σ : Type} (P : Print σ) (s : σ) (str : List Nat) : σ × Int :=
  match P.print s str with
  | (s1, n) =>
    match P.print s1 [13, 10] with
    | (s2, m) => (s2, n + m)

/-- `Print::print(int)`: the decimal digits, with a sign when negative. -/
def decimal (n : Int) : List Nat :=
  if n < 0 then 45 :: (Nat.toDigits 10 n.natAbs).map Char.toNat
  else (Nat.toDigits 10 n.toNat).map Char.toNat

/-- `_client->print(str)`. -/
def Client.print (c : Client) (str : List Nat) : Client := (clientPrint.print c str).1

/-- `_client->println(str)`. -/
def Client.println (c : Client) (str : List Nat) : Client := (clientPrint.println c str).1

/-- The value of a plain `char` that holds the byte `b`: the byte itself where
plain `char` is unsigned, and `b - 256` for a byte from 128 up where it is signed. -/
def charValue (charSigned : Bool) (b : Nat) : Int :=
  if charSigned && decide (128 ≤ b) then (b : Int) - 256 else (b : Int)

/-- Modelled from the spec: the macro `TO_HEX` is declared in the absent header;
the spec has the two digits of `%XX` in uppercase hexadecimal, which fixes the
macro on `0..15`: `'0' + i` up to nine and `'A' - 10 + i` above.  The same
arithmetic is taken for an argument outside `0..15`, on which the spec is silent;
the result is printed as one `char`, so as a byte. -/
def TO_HEX (i : Int) : Nat := ((if i ≤ 9 then 48 + i else 65 - 10 + i) % 256).toNat

/-- The test of `print_encoded_string` for a byte printed as it is. -/
def unreserved (ch : Nat) : Bool :=
  (ch ≥ 65 && ch ≤ 90) || (ch ≥ 97 && ch ≤ 122) || (ch ≥ 48 && ch ≤ 57) ||
  ch == 45 || ch == 95 || ch == 46 || ch == 126

/-- The `for` loop of `print_encoded_string` with its counter `bytes`.  The
comparisons and `print(str[i])` come out the same whatever the sign of plain
`char` (a byte from 128 up fails every comparison either way); `str[i] / 16` and
`str[i] % 16` are C's truncating division and remainder of the `char` value,
which is negative for such a byte where plain `char` is signed. -/
def print_encoded_string_loop {σ : Type} (charSigned : Bool) (P : Print σ) :
    List Nat → σ → Int → σ × Int
  | [], s, n => (s, n)
  | ch :: rest, s, n =>
    if unreserved ch then
      match P.write s ch with
      | (s1, k) => print_encoded_string_loop charSigned P rest s1 (n + k)
    else
      match P.write s 37 with
      | (s1, k1) =>
        match P.write s1 (TO_HEX (Int.tdiv (charValue charSigned ch) 16)) with
        | (s2, k2) =>
          match P.write s2 (TO_HEX (Int.tmod (charValue charSigned ch) 16)) with
          | (s3, k3) => print_encoded_string_loop charSigned P rest s3 (n + k1 + k2 + k3)

/-- `print_encoded_string`, on a target where plain `char` is signed or not. -/
def print_encoded_string {σ : Type} (charSigned : Bool) (P : Print σ) (s : σ)
    (str : List Nat) : σ × Int :=
  print_encoded_string_loop charSigned P str s 0

/-- `write_delete_values`. -/
def write_delete_values {σ : Type} (P : Print σ) (s : σ) (fromTs endTs : List Nat) : σ × Int :=
  match P.print s (bytes "\x7b\"from\":\"") with
  | (s1, n1) =>
    match P.print s1 fromTs with
    | (s2, n2) =>
      match P.print s2 (bytes "\",\"end\":\"") with
      | (s3, n3) =>
        match P.print s3 endTs with
        | (s4, n4) =>
          match P.print s4 (bytes "\"\x7d") with
          | (s5, n5) => (s5, 0 + n1 + n2 + n3 + n4 + n5)

/-- `M2XStreamClient::writeHttpHeader`. -/
def writeHttpHeader (K : Codes) (cfg : Config) (contentLength : Int) (c : Client) : Client :=
  let c1 := c.println K.USER_AGENT
  let c2 := c1.print (bytes "X-M2X-KEY: ")
  let c3 := c2.println cfg.key
  let c4 := c3.print (bytes "Host: ")
  let c5 := (print_encoded_string K.charSigned clientPrint c4 cfg.host).1
  let c6 := if cfg.port ≠ K.kDefaultM2XPort then (c5.print (bytes ":")).print (decimal cfg.port) else c5
  let c7 := c6.println []
  let c8 :=
    if contentLength > 0 then
      ((c7.println (bytes "Content-Type: application/json")).print
        (bytes "Content-Length: ")).println (decimal contentLength)
    else c7
  c8.println []

/-- `M2XStreamClient::writeDeleteHeader`. -/
def writeDeleteHeader (K : Codes) (cfg : Config) (deviceId streamName : List Nat)
    (contentLength : Int) (c : Client) : Client :=
  let c1 := c.print (bytes "DELETE /v2/devices/")
  let c2 := (print_encoded_string K.charSigned clientPrint c1 deviceId).1
  let c3 := c2.print (bytes "/streams/")
  let c4 := (print_encoded_string K.charSigned clientPrint c3 streamName).1
  let c5 := c4.print (bytes "/values")
  let c6 := c5.println (bytes " HTTP/1.0")
  writeHttpHeader K cfg contentLength c6

/-! ## Public operations -/

/-- The request written by `listStreamValues` once connected. -/
def listStreamValuesRequest (K : Codes) (cfg : Config) (deviceId streamName : List Nat)
    (query : Option (List Nat)) (c : Client) : Client :=
  let c1 := c.print (bytes "GET /v2/devices/")
  let c2 := (print_encoded_string K.charSigned clientPrint c1 deviceId).1
  let c3 := c2.print (bytes "/streams/")
  let c4 := (print_encoded_string K.charSigned clientPrint c3 streamName).1
  let c5 := c4.print (bytes "/values")
  let c6 :=
    match query with
    | none => c5
    | some q => (if cstrAt q 0 ≠ 63 then c5.print [63] else c5).print q
  let c7 := c6.println (bytes " HTTP/1.0")
  writeHttpHeader K cfg (-1) c7

/-- `M2XStreamClient::listStreamValues`. -/
def listStreamValues {P : Type} (K : Codes) (cfg : Config) (T : Tokenizer P)
    (deviceId streamName : List Nat) (query : Option (List Nat)) (c : Client) :
    Option (Int × Client) :=
  match c.connect with
  | (false, c0) => some (K.E_NOCONNECTION, c0)
  | (true, c0) =>
    match readStatusCode K cfg false (listStreamValuesRequest K cfg deviceId streamName query c0) with
    | none => none
    | some (status, c1) =>
      if status = 200 then
        match readStreamValue K cfg T c1 with
        | none => none
        | some (_, c2, _) => some (status, close c2)
      else some (status, close c1)

/-- `M2XStreamClient::readLocation(deviceId, callback, context)`. -/
def readLocation {P : Type} (K : Codes) (cfg : Config) (T : Tokenizer P)
    (deviceId : List Nat) (c : Client) : Option (Int × Client) :=
  match c.connect with
  | (false, c0) => some (K.E_NOCONNECTION, c0)
  | (true, c0) =>
    let c1 := c0.print (bytes "GET /v2/devices/")
    let c2 := (print_encoded_string K.charSigned clientPrint c1 deviceId).1
    let c3 := c2.println (bytes "/location HTTP/1.0")
    match readStatusCode K cfg false (writeHttpHeader K cfg (-1) c3) with
    | none => none
    | some (status, c4) =>
      if status = 200 then
        match readLocationBody K cfg T c4 with
        | none => none
        | some (_, c5, _) => some (status, close c5)
      else some (status, close c4)

/-- `M2XStreamClient::deleteValues`. -/
def deleteValues (K : Codes) (cfg : Config) (deviceId streamName fromTs endTs : List Nat)
    (c : Client) : Option (Int × Client) :=
  match c.connect with
  | (false, c0) => some (K.E_NOCONNECTION, c0)
  | (true, c0) =>
    let length := (write_delete_values nullPrint () fromTs endTs).2
    let c1 := writeDeleteHeader K cfg deviceId streamName length c0
    let c2 := (write_delete_values clientPrint c1 fromTs endTs).1
    readStatusCode K cfg true c2

/-- What `getTimestamp` leaves behind: the returned value, the caller's buffer,
`*bufferLength` (`none` for a null pointer) and the socket. -/
structure TimestampResult where
  status : Int
  buffer : Nat → Nat
  bufferLength : Option Int
  client : Client

/-- `M2XStreamClient::getTimestamp`; `bufferLength = none` is the null pointer. -/
def getTimestamp (K : Codes) (cfg : Config) (buffer : Nat → Nat) (bufferLength : Option Int)
    (c : Client) : Option TimestampResult :=
  match bufferLength with
  | none => some ⟨K.E_INVALID, buffer, none, c⟩
  | some bufLen =>
    match c.connect with
    | (false, c0) => some ⟨K.E_NOCONNECTION, buffer, some bufLen, c0⟩
    | (true, c0) =>
      let c1 := c0.println (bytes "GET /v2/time/seconds HTTP/1.0")
      match readStatusCode K cfg false (writeHttpHeader K cfg (-1) c1) with
      | none => none
      | some (status, c2) =>
        if status = 200 then
          match readContentLength K cfg c2 with
          | none => none
          | some (length, c3) =>
            if length < 0 then some ⟨length, buffer, some bufLen, close c3⟩
            else if bufLen < length then some ⟨K.E_BUFFER_TOO_SMALL, buffer, some length, c3⟩
            else
              match skipHttpHeader K cfg c3 with
              | none => none
              | some (index, c4) =>
                if index ≠ K.E_OK then some ⟨index, buffer, some length, close c4⟩
                else
                  match copyLoop K status length (c4.pending.length + 2) c4 buffer 0 with
                  | none => none
                  | some (r, buffer1, c5) => some ⟨r, buffer1, some length, c5⟩
        else some ⟨status, buffer, some bufLen, close c2⟩

/-- A sample assignment of the header constants: `E_OK` is zero, the error codes
are negative and pairwise distinct; plain `char` is signed, as with avr-gcc. -/
def sampleCodes : Codes :=
  { E_OK := 0, E_NOCONNECTION := -1, E_DISCONNECTED := -2, E_NOTREACHABLE := -3,
    E_INVALID := -4, E_JSON_INVALID := -5, E_BUFFER_TOO_SMALL := -6,
    kDefaultM2XPort := 80, USER_AGENT := bytes "User-Agent: M2X Arduino Client",
    charSigned := true }

/-- A sample client configuration with case-sensitive matching. -/
def sampleConfig : Config :=
  { key := bytes "0123456789abcdef", case_insensitive := false,
    host := bytes "api-m2x.att.com", port := 80 }

/-- A connected socket with `rx` buffered and `pending` still to arrive. -/
def Client.ofStream (rx : List Nat) (pending : List (List Nat)) : Client :=
  { connectOk := true, rx := rx, pending := pending, tx := [], consumed := [], calls := [] }

/-- Lower case of an ASCII byte, as the spec's case-insensitive comparison has it. -/
def lowerByte (n : Nat) : Nat := if 65 ≤ n ∧ n ≤ 90 then n + 32 else n

/-- A stream byte matches a pattern byte: the pattern byte is the wildcard `*`,
or the two are equal under the case sensitivity `ci`. -/
def byteMatches (ci : Bool) (ch p : Nat) : Prop :=
  p = 42 ∨ (if ci then lowerByte ch = lowerByte p else ch = p)

/-- Some contiguous window of `stream` matches the pattern `str` position by position. -/
def WindowMatch (ci : Bool) (str stream : List Nat) : Prop :=
  ∃ pre w post, stream = pre ++ w ++ post ∧ List.Forall₂ (byteMatches ci) w str

/-- The restart-on-mismatch scan of `waitForString` as a function of the byte
sequence alone, started at pattern index `i`: the bytes left after the byte that
completes the pattern, or `none` when the sequence ends first. -/
def scanRest (cfg : Config) (str : List Nat) : List Nat → Nat → Option (List Nat)
  | [], _ => none
  | ch :: rest, i =>
    if charMatches cfg ch (cstrAt str i) then
      if cstrAt str (i + 1) == 0 then some rest else scanRest cfg str rest (i + 1)
    else scanRest cfg str rest 0

/-- The socket `c1` is `c` after exactly the bytes `pre` have been read (bursts
may have arrived meanwhile); nothing was written, no connection call was made. -/
structure Reads (c : Client) (pre : List Nat) (c1 : Client) : Prop where
  connectOk : c1.connectOk = c.connectOk
  tx : c1.tx = c.tx
  calls : c1.calls = c.calls
  consumed : c1.consumed = c.consumed ++ pre
  remaining : c.remaining = pre ++ c1.remaining

/-- The digit loop of `readStatusCode` as a function of the byte sequence alone. -/
def statusRest : List Nat → Int → Nat → Option (Int × List Nat)
  | [], _, _ => none
  | ch :: rest, responseCode, ret =>
    if ret + 1 == 3 then some (responseCode * 10 + ((ch : Int) - 48), rest)
    else statusRest rest (responseCode * 10 + ((ch : Int) - 48)) (ret + 1)

/-- The digit loop of `readContentLength` as a function of the byte sequence alone. -/
def lengthRest (K : Codes) : List Nat → Int → Option (Int × List Nat)
  | [], _ => none
  | ch :: rest, ret =>
    if ch == 13 || ch == 10 then some (if ret == 0 then K.E_INVALID else ret, rest)
    else lengthRest K rest (wrapInt (ret * 10 + ((ch : Int) - 48)))

/-- The decimal value of a run of ASCII digits, continuing from `acc`. -/
def decimalFrom (acc : Nat) (ds : List Nat) : Nat :=
  ds.foldl (fun a d => a * 10 + (d - 48)) acc

/-- The decimal value of a run of ASCII digits. -/
def decimalValue (ds : List Nat) : Nat := decimalFrom 0 ds

/-- Every byte of the run is an ASCII digit. -/
def IsDigits (ds : List Nat) : Prop := ∀ d ∈ ds, 48 ≤ d ∧ d ≤ 57

/-- The pattern index of `waitForString` after the bytes of a sequence that does
not complete the pattern, started at index `i`. -/
def scanIndex (cfg : Config) (str : List Nat) : List Nat → Nat → Nat
  | [], i => i
  | ch :: rest, i =>
    if charMatches cfg ch (cstrAt str i) then scanIndex cfg str rest (i + 1)
    else scanIndex cfg str rest 0

/-- The text before a header name leaves the name at the start of a line: it is
empty or ends with a line feed. -/
def EndsLine (pre : List Nat) : Prop := pre = [] ∨ pre.getLast? = some 10

/-- A sample socket: `OK` CR LF `Content-Length: 12` CR LF arriving in three bursts. -/
def sampleLengthClient : Client :=
  Client.ofStream [79, 75, 13, 10, 67]
    [[111, 110, 116, 101, 110, 116, 45, 76, 101, 110, 103, 116, 104, 58, 32, 49], [50, 13, 10]]

/-- A tokenizer that accepts every chunk (`jsonlite_result_ok`) and keeps no state. -/
def acceptAll : Tokenizer Unit :=
  { init := (), tokenize := fun _ _ => (jsonlite_result.ok, ()) }

/-- The socket `c1` is `c` after bytes have been written and nothing else: the
receive side and the call log are untouched. -/
structure Wrote (c c1 : Client) : Prop where
  connectOk : c1.connectOk = c.connectOk
  rx : c1.rx = c.rx
  pending : c1.pending = c.pending
  consumed : c1.consumed = c.consumed
  calls : c1.calls = c.calls

/-- The bytes `print_encoded_string` sends for a string, as a function of the string. -/
def percentEncode (charSigned : Bool) (str : List Nat) : List Nat :=
  str.flatMap (fun ch =>
    if unreserved ch then [ch]
    else [37, TO_HEX (Int.tdiv (charValue charSigned ch) 16),
      TO_HEX (Int.tmod (charValue charSigned ch) 16)])

/-- The unreserved set of the spec: ASCII letters, digits, `-`, `_`, `.` and `~`. -/
def IsUnreservedByte (b : Nat) : Prop :=
  (65 ≤ b ∧ b ≤ 90) ∨ (97 ≤ b ∧ b ≤ 122) ∨ (48 ≤ b ∧ b ≤ 57) ∨
    b = 45 ∨ b = 95 ∨ b = 46 ∨ b = 126

instance (b : Nat) : Decidable (IsUnreservedByte b) := by
  unfold IsUnreservedByte; infer_instance

/-- The uppercase hexadecimal digit of a value below sixteen. -/
def hexUpper (n : Nat) : Nat := (bytes "0123456789ABCDEF").getD n 0

/-- Percent-encoding as the spec words it: an unreserved byte stands for itself,
any other byte is `%` followed by the two uppercase hexadecimal digits of its value. -/
def percentEncodeSpec (str : List Nat) : List Nat :=
  str.flatMap (fun b => if IsUnreservedByte b then [b] else [37, hexUpper (b / 16), hexUpper (b % 16)])

/-- The bytes `writeHttpHeader` sends, as a function of the configuration and
the content length. -/
def httpHeaderBytes (K : Codes) (cfg : Config) (contentLength : Int) : List Nat :=
  K.USER_AGENT ++ [13, 10] ++ bytes "X-M2X-KEY: " ++ cfg.key ++ [13, 10] ++
    bytes "Host: " ++ percentEncode K.charSigned cfg.host ++
    (if cfg.port ≠ K.kDefaultM2XPort then bytes ":" ++ decimal cfg.port else []) ++ [13, 10] ++
    (if contentLength > 0 then
      bytes "Content-Type: application/json" ++ [13, 10] ++
        bytes "Content-Length: " ++ decimal contentLength ++ [13, 10]
    else []) ++ [13, 10]

/-- The JSON body of a delete request as the spec gives it. -/
def deleteBody (fromTs endTs : List Nat) : List Nat :=
  bytes "\x7b\"from\":\"" ++ fromTs ++ bytes "\",\"end\":\"" ++ endTs ++ bytes "\"\x7d"

/-- The query part of the request line of `listStreamValues` as the spec gives
it: empty without a query, the query itself when it starts with `?`, and `?`
followed by the query otherwise. -/
def queryPart (query : Option (List Nat)) : List Nat :=
  match query with
  | none => []
  | some q => if q.head? = some 63 then q else 63 :: q

/-- The other-case counterpart of an ASCII letter; any other byte is left as it is. -/
def swapCase (b : Nat) : Nat :=
  if 65 ≤ b ∧ b ≤ 90 then b + 32 else if 97 ≤ b ∧ b ≤ 122 then b - 32 else b

/-- The byte `b` is `a`, or `a` replaced by its other-case counterpart. -/
def CaseVariant (a b : Nat) : Prop := b = a ∨ b = swapCase a

/-- The sample configuration with case-insensitive matching. -/
def sampleConfigCI : Config := { sampleConfig with case_insensitive := true }

/-- The value of an uppercase hexadecimal digit. -/
def hexValue (d : Nat) : Nat := if d ≤ 57 then d - 48 else d - 55

/-- Reads percent-encoded bytes back: `%` and two hexadecimal digits stand for
one byte, any other byte for itself. -/
def percentDecode : List Nat → List Nat
  | [] => []
  | b :: rest =>
    if b = 37 then
      match rest with
      | h :: l :: more => (hexValue h * 16 + hexValue l) :: percentDecode more
      | _ => []
    else b :: percentDecode rest

/-! ## Lemmas on the socket and the matcher -/

theorem charMatches_iff (cfg : Config) (ch p : Nat) :
    charMatches cfg ch p = true ↔ byteMatches cfg.case_insensitive ch p := by
  unfold charMatches byteMatches tolower lowerByte
  cases cfg.case_insensitive <;> simp only [Bool.false_eq_true, if_false, if_true, Bool.or_eq_true, beq_iff_eq]
  · constructor <;> rintro (h | h) <;> first | exact Or.inl h | (right; omega)
  · constructor <;> rintro (h | h)
    · exact Or.inl h
    · right; split_ifs at h ⊢ <;> omega
    · exact Or.inl h
    · right; split_ifs at h ⊢ <;> omega

theorem Reads.refl (c : Client) : Reads c [] c := ⟨rfl, rfl, rfl, by simp, by simp⟩

theorem Reads.trans {c c1 c2 : Client} {p q : List Nat} (h1 : Reads c p c1) (h2 : Reads c1 q c2) :
    Reads c (p ++ q) c2 :=
  ⟨h2.connectOk.trans h1.connectOk, h2.tx.trans h1.tx, h2.calls.trans h1.calls,
    by rw [h2.consumed, h1.consumed, List.append_assoc],
    by rw [h1.remaining, h2.remaining, List.append_assoc]⟩

theorem Reads.idle (c : Client) : Reads c [] c.idle := by
  unfold Client.idle
  cases h : c.pending with
  | nil => exact Reads.refl c
  | cons b ps => exact ⟨rfl, rfl, rfl, by simp, by simp [Client.remaining, h]⟩

theorem Reads.read (c : Client) (ch : Nat) (rest : List Nat) (h : c.rx = ch :: rest) :
    Reads c [ch] (c.read ch rest) :=
  ⟨rfl, rfl, rfl, rfl, by simp [Client.remaining, Client.read, h]⟩

theorem waitForStringAvail_spec (cfg : Config) (str : List Nat) :
    ∀ (avail : List Nat) (c : Client) (idx : Nat), c.rx = avail →
      ∃ b idx1 c1 pre, waitForStringAvail cfg str avail c idx = (b, idx1, c1) ∧
        Reads c pre c1 ∧ c1.pending = c.pending ∧
        (b = true → ∀ more, scanRest cfg str (avail ++ more) idx = some (c1.rx ++ more)) ∧
        (b = false → c1.rx = [] ∧
          ∀ more, scanRest cfg str (avail ++ more) idx = scanRest cfg str more idx1) := by
  intro avail
  induction avail with
  | nil =>
    intro c idx h
    exact ⟨false, idx, c, [], rfl, Reads.refl c, rfl, by simp, fun _ => ⟨h, fun _ => rfl⟩⟩
  | cons ch rest ih =>
    intro c idx h
    have hr := Reads.read c ch rest h
    by_cases hm : charMatches cfg ch (cstrAt str idx) = true
    · by_cases hz : (cstrAt str (idx + 1) == 0) = true
      · refine ⟨true, idx + 1, c.read ch rest, [ch], ?_, hr, rfl, ?_, by simp⟩
        · simp [waitForStringAvail, hm, hz]
        · intro _ more
          simp [scanRest, hm, hz, Client.read]
      · obtain ⟨b, idx1, c1, pre, he, hreads, hp, ht, hf⟩ := ih (c.read ch rest) (idx + 1) rfl
        refine ⟨b, idx1, c1, [ch] ++ pre, ?_, hr.trans hreads, hp, ?_, ?_⟩
        · simp [waitForStringAvail, hm, hz, he]
        · intro hb more
          simpa [scanRest, hm, hz] using ht hb more
        · intro hb
          refine ⟨(hf hb).1, fun more => ?_⟩
          simpa [scanRest, hm, hz] using (hf hb).2 more
    · obtain ⟨b, idx1, c1, pre, he, hreads, hp, ht, hf⟩ := ih (c.read ch rest) 0 rfl
      refine ⟨b, idx1, c1, [ch] ++ pre, ?_, hr.trans hreads, hp, ?_, ?_⟩
      · simp [waitForStringAvail, hm, he]
      · intro hb more
        simpa [scanRest, hm] using ht hb more
      · intro hb
        refine ⟨(hf hb).1, fun more => ?_⟩
        simpa [scanRest, hm] using (hf hb).2 more

theorem waitForStringLoop_spec (K : Codes) (cfg : Config) (str : List Nat) :
    ∀ (fuel : Nat) (c : Client) (idx : Nat), c.pending.length < fuel →
      (∀ rest, scanRest cfg str c.remaining idx = some rest →
        ∃ c1 pre, waitForStringLoop K cfg str fuel c idx = some (K.E_OK, c1) ∧
          Reads c pre c1 ∧ c1.remaining = rest) ∧
      (scanRest cfg str c.remaining idx = none →
        ∃ c1, waitForStringLoop K cfg str fuel c idx = some (K.E_DISCONNECTED, close c1) ∧
          Reads c c.remaining c1 ∧ c1.rx = [] ∧ c1.pending = []) := by
  intro fuel
  induction fuel with
  | zero => intro c idx h; omega
  | succ fuel ih =>
    intro c idx hfuel
    obtain ⟨b, idx1, c1, pre, he, hreads, hp, ht, hf⟩ :=
      waitForStringAvail_spec cfg str c.rx c idx rfl
    cases b with
    | true =>
      have hs := ht rfl c.pending.flatten
      constructor
      · intro rest hrest
        refine ⟨c1, pre, by simp [waitForStringLoop, he], hreads, ?_⟩
        have : c.remaining = c.rx ++ c.pending.flatten := rfl
        rw [this, hs] at hrest
        simp only [Option.some.injEq] at hrest
        simp [Client.remaining, hp, hrest]
      · intro hnone
        have : c.remaining = c.rx ++ c.pending.flatten := rfl
        rw [this, hs] at hnone
        cases hnone
    | false =>
      obtain ⟨hrx, hs⟩ := hf rfl
      have hs := hs c.pending.flatten
      have hrem : c.remaining = c.rx ++ c.pending.flatten := rfl
      cases hpend : c.pending with
      | nil =>
        have hconn : c1.connected = false := by simp [Client.connected, hp, hpend]
        constructor
        · intro rest hrest
          rw [hrem, hs, hpend] at hrest
          simp [scanRest] at hrest
        · intro _
          refine ⟨c1, by simp [waitForStringLoop, he, hconn], ?_, hrx, by rw [hp, hpend]⟩
          have h1 : c1.remaining = [] := by simp [Client.remaining, hrx, hp, hpend]
          have h2 := hreads.remaining
          rw [h1, List.append_nil] at h2
          rw [h2]
          exact hreads
      | cons bst ps =>
        have hconn : c1.connected = true := by simp [Client.connected, hp, hpend]
        have hidle : c1.idle.pending = ps := by simp [Client.idle, hp, hpend]
        have hri : Reads c pre c1.idle := by
          simpa using hreads.trans (Reads.idle c1)
        have hrem1 : c1.idle.remaining = c.pending.flatten := by
          simp [Client.idle, hp, hpend, Client.remaining, hrx]
        have hlen : c1.idle.pending.length < fuel := by
          rw [hidle]; rw [hpend] at hfuel; simp at hfuel; omega
        obtain ⟨ihA, ihB⟩ := ih c1.idle idx1 hlen
        have hstep : waitForStringLoop K cfg str (fuel + 1) c idx =
            waitForStringLoop K cfg str fuel c1.idle idx1 := by
          simp [waitForStringLoop, he, hconn]
        have hpre : c.remaining = pre ++ c.pending.flatten := by
          rw [hreads.remaining]; simp [Client.remaining, hrx, hp]
        constructor
        · intro rest hrest
          rw [hrem, hs, ← hrem1] at hrest
          obtain ⟨c2, pre2, h2, hr2, hrem2⟩ := ihA rest hrest
          exact ⟨c2, pre ++ pre2, by rw [hstep, h2], by simpa using hreads.trans ((Reads.idle c1).trans hr2), hrem2⟩
        · intro hnone
          rw [hrem, hs, ← hrem1] at hnone
          obtain ⟨c2, h2, hr2, hrx2, hp2⟩ := ihB hnone
          refine ⟨c2, by rw [hstep, h2], ?_, hrx2, hp2⟩
          rw [hpre, ← hrem1]
          exact hri.trans hr2

theorem cstrAt_of_lt (str : List Nat) (i : Nat) (h : i < str.length) : cstrAt str i = str[i] := by
  unfold cstrAt; exact List.getD_eq_getElem _ _ h

theorem cstrAt_eq_zero_iff (str : List Nat) (hz : 0 ∉ str) (i : Nat) :
    cstrAt str i = 0 ↔ str.length ≤ i := by
  constructor
  · intro h
    by_contra hlt
    push_neg at hlt
    rw [cstrAt_of_lt str i hlt] at h
    exact hz (h ▸ List.getElem_mem hlt)
  · intro h
    unfold cstrAt; exact List.getD_eq_default _ _ h

theorem scanRest_window (cfg : Config) (str : List Nat) (hz : 0 ∉ str) :
    ∀ (s : List Nat) (idx : Nat) (w rest : List Nat), idx < str.length →
      List.Forall₂ (byteMatches cfg.case_insensitive) w (str.take idx) →
      scanRest cfg str s idx = some rest →
      ∃ pre w1, w ++ s = pre ++ w1 ++ rest ∧
        List.Forall₂ (byteMatches cfg.case_insensitive) w1 str := by
  intro s
  induction s with
  | nil => intro idx w rest _ _ h; simp [scanRest] at h
  | cons ch s ih =>
    intro idx w rest hidx hw h
    by_cases hm : charMatches cfg ch (cstrAt str idx) = true
    · have hbm : byteMatches cfg.case_insensitive ch str[idx] := by
        rw [← cstrAt_of_lt str idx hidx]; exact (charMatches_iff cfg _ _).1 hm
      have hw1 : List.Forall₂ (byteMatches cfg.case_insensitive) (w ++ [ch]) (str.take (idx + 1)) := by
        rw [List.take_succ, List.getElem?_eq_getElem hidx]
        exact List.rel_append hw (List.Forall₂.cons hbm List.Forall₂.nil)
      by_cases hend : (cstrAt str (idx + 1) == 0) = true
      · have hlen : str.length ≤ idx + 1 := (cstrAt_eq_zero_iff str hz _).1 (by simpa using hend)
        rw [List.take_of_length_le hlen] at hw1
        simp [scanRest, hm, hend] at h
        exact ⟨[], w ++ [ch], by simp [h], hw1⟩
      · have hlen : idx + 1 < str.length := by
          by_contra hge
          push_neg at hge
          exact hend (by simpa using (cstrAt_eq_zero_iff str hz _).2 hge)
        simp [scanRest, hm, hend] at h
        obtain ⟨pre, w1, he, hw2⟩ := ih (idx + 1) (w ++ [ch]) rest hlen hw1 h
        exact ⟨pre, w1, by simpa using he, hw2⟩
    · simp [scanRest, hm] at h
      obtain ⟨pre, w1, he, hw2⟩ := ih 0 [] rest (by omega) (by simp) h
      refine ⟨w ++ [ch] ++ pre, w1, ?_, hw2⟩
      simp at he
      simp [he]

theorem scanRest_of_window (cfg : Config) (str : List Nat) (hz : 0 ∉ str) (rest : List Nat) :
    ∀ (w : List Nat) (idx : Nat), idx < str.length →
      List.Forall₂ (byteMatches cfg.case_insensitive) w (str.drop idx) →
      scanRest cfg str (w ++ rest) idx = some rest := by
  intro w
  induction w with
  | nil =>
    intro idx hidx hw
    have := hw.length_eq
    simp at this; omega
  | cons ch w ih =>
    intro idx hidx hw
    rw [List.drop_eq_getElem_cons hidx] at hw
    cases hw with
    | cons hb hw =>
      have hm : charMatches cfg ch (cstrAt str idx) = true := by
        rw [cstrAt_of_lt str idx hidx]; exact (charMatches_iff cfg _ _).2 hb
      by_cases hend : (cstrAt str (idx + 1) == 0) = true
      · have hlen : str.length ≤ idx + 1 := (cstrAt_eq_zero_iff str hz _).1 (by simpa using hend)
        rw [List.drop_of_length_le hlen] at hw
        cases hw
        simp [scanRest, hm, hend]
      · have hlen : idx + 1 < str.length := by
          by_contra hge
          push_neg at hge
          exact hend (by simpa using (cstrAt_eq_zero_iff str hz _).2 hge)
        simpa [scanRest, hm, hend] using ih (idx + 1) hlen hw

theorem waitForString_spec (K : Codes) (cfg : Config) (str : List Nat) (c : Client)
    (hne : str ≠ []) (hz : 0 ∉ str) :
    (∀ rest, scanRest cfg str c.remaining 0 = some rest →
      ∃ c1 pre, waitForString K cfg str c = some (K.E_OK, c1) ∧
        Reads c pre c1 ∧ c1.remaining = rest) ∧
    (scanRest cfg str c.remaining 0 = none →
      ∃ c1, waitForString K cfg str c = some (K.E_DISCONNECTED, close c1) ∧
        Reads c c.remaining c1 ∧ c1.rx = [] ∧ c1.pending = []) := by
  have h0 : (cstrAt str 0 == 0) = false := by
    have : ¬ cstrAt str 0 = 0 := by
      rw [cstrAt_eq_zero_iff str hz]
      have := List.length_pos.2 hne
      omega
    simpa using this
  unfold waitForString
  rw [h0]
  simpa using waitForStringLoop_spec K cfg str (c.pending.length + 1) c 0 (by omega)

theorem readStatusCodeAvail_spec :
    ∀ (avail : List Nat) (c : Client) (rc : Int) (ret : Nat), c.rx = avail →
      ∃ o rc1 ret1 c1 pre, readStatusCodeAvail avail c rc ret = (o, rc1, ret1, c1) ∧
        Reads c pre c1 ∧ c1.pending = c.pending ∧
        (∀ code, o = some code → ∀ more, statusRest (avail ++ more) rc ret = some (code, c1.rx ++ more)) ∧
        (o = none → c1.rx = [] ∧
          ∀ more, statusRest (avail ++ more) rc ret = statusRest more rc1 ret1) := by
  intro avail
  induction avail with
  | nil =>
    intro c rc ret h
    exact ⟨none, rc, ret, c, [], rfl, Reads.refl c, rfl, by simp, fun _ => ⟨h, fun _ => rfl⟩⟩
  | cons ch rest ih =>
    intro c rc ret h
    have hr := Reads.read c ch rest h
    by_cases h3 : (ret + 1 == 3) = true
    · refine ⟨some (rc * 10 + ((ch : Int) - 48)), rc * 10 + ((ch : Int) - 48), ret + 1,
        c.read ch rest, [ch], ?_, hr, rfl, ?_, by simp⟩
      · simp [readStatusCodeAvail, h3]
      · intro code hcode more
        simp only [Option.some.injEq] at hcode
        simp [statusRest, h3, Client.read, hcode]
    · obtain ⟨o, rc1, ret1, c1, pre, he, hreads, hp, ht, hf⟩ :=
        ih (c.read ch rest) (rc * 10 + ((ch : Int) - 48)) (ret + 1) rfl
      refine ⟨o, rc1, ret1, c1, [ch] ++ pre, ?_, hr.trans hreads, hp, ?_, ?_⟩
      · simp [readStatusCodeAvail, h3, he]
      · intro code hcode more
        simpa [statusRest, h3] using ht code hcode more
      · intro ho
        refine ⟨(hf ho).1, fun more => ?_⟩
        simpa [statusRest, h3] using (hf ho).2 more

theorem readStatusCodeLoop_spec (K : Codes) (closeClient : Bool) :
    ∀ (fuel : Nat) (c : Client) (rc : Int) (ret : Nat), c.pending.length < fuel →
      (∀ code rest, statusRest c.remaining rc ret = some (code, rest) →
        ∃ c1 pre, readStatusCodeLoop K closeClient fuel c rc ret =
            some (code, if closeClient then close c1 else c1) ∧
          Reads c pre c1 ∧ c1.remaining = rest) ∧
      (statusRest c.remaining rc ret = none →
        ∃ c1, readStatusCodeLoop K closeClient fuel c rc ret =
            some (K.E_DISCONNECTED, if closeClient then close c1 else c1) ∧
          Reads c c.remaining c1 ∧ c1.rx = [] ∧ c1.pending = []) := by
  intro fuel
  induction fuel with
  | zero => intro c rc ret h; omega
  | succ fuel ih =>
    intro c rc ret hfuel
    obtain ⟨o, rc1, ret1, c1, pre, he, hreads, hp, ht, hf⟩ :=
      readStatusCodeAvail_spec c.rx c rc ret rfl
    have hrem : c.remaining = c.rx ++ c.pending.flatten := rfl
    cases o with
    | some code0 =>
      have hs := ht code0 rfl c.pending.flatten
      constructor
      · intro code rest hrest
        rw [hrem, hs] at hrest
        simp only [Option.some.injEq, Prod.mk.injEq] at hrest
        refine ⟨c1, pre, by simp [readStatusCodeLoop, he, hrest.1], hreads, ?_⟩
        simp [Client.remaining, hp, hrest.2]
      · intro hnone
        rw [hrem, hs] at hnone
        cases hnone
    | none =>
      obtain ⟨hrx, hs⟩ := hf rfl
      have hs := hs c.pending.flatten
      cases hpend : c.pending with
      | nil =>
        have hconn : c1.connected = false := by simp [Client.connected, hp, hpend]
        constructor
        · intro code rest hrest
          rw [hrem, hs, hpend] at hrest
          simp [statusRest] at hrest
        · intro _
          refine ⟨c1, by simp [readStatusCodeLoop, he, hconn], ?_, hrx, by rw [hp, hpend]⟩
          have h1 : c1.remaining = [] := by simp [Client.remaining, hrx, hp, hpend]
          have h2 := hreads.remaining
          rw [h1, List.append_nil] at h2
          rw [h2]
          exact hreads
      | cons bst ps =>
        have hconn : c1.connected = true := by simp [Client.connected, hp, hpend]
        have hidle : c1.idle.pending = ps := by simp [Client.idle, hp, hpend]
        have hri : Reads c pre c1.idle := by
          simpa using hreads.trans (Reads.idle c1)
        have hrem1 : c1.idle.remaining = c.pending.flatten := by
          simp [Client.idle, hp, hpend, Client.remaining, hrx]
        have hlen : c1.idle.pending.length < fuel := by
          rw [hidle]; rw [hpend] at hfuel; simp at hfuel; omega
        obtain ⟨ihA, ihB⟩ := ih c1.idle rc1 ret1 hlen
        have hstep : readStatusCodeLoop K closeClient (fuel + 1) c rc ret =
            readStatusCodeLoop K closeClient fuel c1.idle rc1 ret1 := by
          simp [readStatusCodeLoop, he, hconn]
        have hpre : c.remaining = pre ++ c.pending.flatten := by
          rw [hreads.remaining]; simp [Client.remaining, hrx, hp]
        constructor
        · intro code rest hrest
          rw [hrem, hs, ← hrem1] at hrest
          obtain ⟨c2, pre2, h2, hr2, hrem2⟩ := ihA code rest hrest
          exact ⟨c2, pre ++ pre2, by rw [hstep, h2], hri.trans hr2, hrem2⟩
        · intro hnone
          rw [hrem, hs, ← hrem1] at hnone
          obtain ⟨c2, h2, hr2, hrx2, hp2⟩ := ihB hnone
          refine ⟨c2, by rw [hstep, h2], ?_, hrx2, hp2⟩
          rw [hpre, ← hrem1]
          exact hri.trans hr2

theorem Reads.pre_eq {c c1 : Client} {pre pre2 rest : List Nat} (h : Reads c pre c1)
    (h1 : c1.remaining = rest) (h2 : c.remaining = pre2 ++ rest) : pre = pre2 := by
  have := h.remaining
  rw [h1, h2] at this
  exact (List.append_cancel_right this).symm

theorem byteMatches_self (ci : Bool) (x : Nat) : byteMatches ci x x := by
  unfold byteMatches; right; cases ci <;> simp

theorem byteMatches_star (ci : Bool) (x : Nat) : byteMatches ci x 42 := Or.inl rfl

theorem readStatusCode_head (K : Codes) (cfg : Config) (closeClient : Bool) (c : Client)
    (v1 v2 d1 d2 d3 : Nat) (rest : List Nat)
    (_h1 : d1 ≤ 9) (_h2 : d2 ≤ 9) (_h3 : d3 ≤ 9)
    (h : c.remaining =
      [72, 84, 84, 80, 47, v1, 46, v2, 32, 48 + d1, 48 + d2, 48 + d3] ++ rest) :
    ∃ c1, readStatusCode K cfg closeClient c =
        some (100 * (d1 : Int) + 10 * (d2 : Int) + (d3 : Int), if closeClient then close c1 else c1) ∧
      Reads c [72, 84, 84, 80, 47, v1, 46, v2, 32, 48 + d1, 48 + d2, 48 + d3] c1 ∧
      c1.remaining = rest := by
  have hscan : scanRest cfg statusPattern c.remaining 0 =
      some ([48 + d1, 48 + d2, 48 + d3] ++ rest) := by
    rw [h]
    have := scanRest_of_window cfg statusPattern (by decide)
      ([48 + d1, 48 + d2, 48 + d3] ++ rest) [72, 84, 84, 80, 47, v1, 46, v2, 32] 0 (by decide)
      (by
        simp only [List.drop_zero, statusPattern]
        repeat first
          | exact List.Forall₂.nil
          | refine List.Forall₂.cons (byteMatches_self _ _) ?_
          | refine List.Forall₂.cons (byteMatches_star _ _) ?_)
    simpa using this
  obtain ⟨c1, pre, hw, hr1, hrem1⟩ :=
    (waitForString_spec K cfg statusPattern c (by decide) (by decide)).1 _ hscan
  have hpre : pre = [72, 84, 84, 80, 47, v1, 46, v2, 32] :=
    hr1.pre_eq hrem1 (by rw [h]; simp)
  have hst : statusRest c1.remaining 0 0 =
      some (100 * (d1 : Int) + 10 * (d2 : Int) + (d3 : Int), rest) := by
    rw [hrem1]
    simp only [statusRest, List.cons_append, List.nil_append]
    simp
    ring
  obtain ⟨c2, pre2, hl, hr2, hrem2⟩ :=
    (readStatusCodeLoop_spec K closeClient (c1.pending.length + 1) c1 0 0 (by omega)).1 _ _ hst
  have hpre2 : pre2 = [48 + d1, 48 + d2, 48 + d3] :=
    hr2.pre_eq hrem2 hrem1
  refine ⟨c2, ?_, ?_, hrem2⟩
  · simp [readStatusCode, hw, hl]
  · have := hr1.trans hr2
    rw [hpre, hpre2] at this
    simpa using this

theorem readContentLengthAvail_spec (K : Codes) :
    ∀ (avail : List Nat) (c : Client) (ret : Int), c.rx = avail →
      ∃ o ret1 c1 pre, readContentLengthAvail K avail c ret = (o, ret1, c1) ∧
        Reads c pre c1 ∧ c1.pending = c.pending ∧
        (∀ r, o = some r → ∀ more, lengthRest K (avail ++ more) ret = some (r, c1.rx ++ more)) ∧
        (o = none → c1.rx = [] ∧
          ∀ more, lengthRest K (avail ++ more) ret = lengthRest K more ret1) := by
  intro avail
  induction avail with
  | nil =>
    intro c ret h
    exact ⟨none, ret, c, [], rfl, Reads.refl c, rfl, by simp, fun _ => ⟨h, fun _ => rfl⟩⟩
  | cons ch rest ih =>
    intro c ret h
    have hr := Reads.read c ch rest h
    by_cases ht : (ch == 13 || ch == 10) = true
    · refine ⟨some (if ret == 0 then K.E_INVALID else ret), ret, c.read ch rest, [ch], ?_, hr, rfl,
        ?_, by simp⟩
      · simp only [readContentLengthAvail, ht, if_true]
      · intro r hcode more
        simp only [Option.some.injEq] at hcode
        simp only [lengthRest, List.cons_append, ht, if_true, hcode, Client.read]
        rfl
    · obtain ⟨o, ret1, c1, pre, he, hreads, hp, hsome, hnone⟩ :=
        ih (c.read ch rest) (wrapInt (ret * 10 + ((ch : Int) - 48))) rfl
      refine ⟨o, ret1, c1, [ch] ++ pre, ?_, hr.trans hreads, hp, ?_, ?_⟩
      · simp only [readContentLengthAvail, ht, he]; simp
      · intro r hcode more
        simpa only [lengthRest, List.cons_append, ht, Bool.false_eq_true, if_false] using
          hsome r hcode more
      · intro ho
        refine ⟨(hnone ho).1, fun more => ?_⟩
        simpa only [lengthRest, List.cons_append, ht, Bool.false_eq_true, if_false] using
          (hnone ho).2 more

theorem readContentLengthLoop_spec (K : Codes) :
    ∀ (fuel : Nat) (c : Client) (ret : Int), c.pending.length < fuel →
      (∀ r rest, lengthRest K c.remaining ret = some (r, rest) →
        ∃ c1 pre, readContentLengthLoop K fuel c ret = some (r, c1) ∧
          Reads c pre c1 ∧ c1.remaining = rest) ∧
      (lengthRest K c.remaining ret = none →
        ∃ c1, readContentLengthLoop K fuel c ret = some (K.E_DISCONNECTED, c1) ∧
          Reads c c.remaining c1 ∧ c1.rx = [] ∧ c1.pending = []) := by
  intro fuel
  induction fuel with
  | zero => intro c ret h; omega
  | succ fuel ih =>
    intro c ret hfuel
    obtain ⟨o, ret1, c1, pre, he, hreads, hp, ht, hf⟩ :=
      readContentLengthAvail_spec K c.rx c ret rfl
    have hrem : c.remaining = c.rx ++ c.pending.flatten := rfl
    cases o with
    | some r0 =>
      have hs := ht r0 rfl c.pending.flatten
      constructor
      · intro r rest hrest
        rw [hrem, hs] at hrest
        simp only [Option.some.injEq, Prod.mk.injEq] at hrest
        refine ⟨c1, pre, by simp [readContentLengthLoop, he, hrest.1], hreads, ?_⟩
        simp [Client.remaining, hp, hrest.2]
      · intro hnone
        rw [hrem, hs] at hnone
        cases hnone
    | none =>
      obtain ⟨hrx, hs⟩ := hf rfl
      have hs := hs c.pending.flatten
      cases hpend : c.pending with
      | nil =>
        have hconn : c1.connected = false := by simp [Client.connected, hp, hpend]
        constructor
        · intro r rest hrest
          rw [hrem, hs, hpend] at hrest
          simp [lengthRest] at hrest
        · intro _
          refine ⟨c1, by simp [readContentLengthLoop, he, hconn], ?_, hrx, by rw [hp, hpend]⟩
          have h1 : c1.remaining = [] := by simp [Client.remaining, hrx, hp, hpend]
          have h2 := hreads.remaining
          rw [h1, List.append_nil] at h2
          rw [h2]
          exact hreads
      | cons bst ps =>
        have hconn : c1.connected = true := by simp [Client.connected, hp, hpend]
        have hidle : c1.idle.pending = ps := by simp [Client.idle, hp, hpend]
        have hri : Reads c pre c1.idle := by
          simpa using hreads.trans (Reads.idle c1)
        have hrem1 : c1.idle.remaining = c.pending.flatten := by
          simp [Client.idle, hp, hpend, Client.remaining, hrx]
        have hlen : c1.idle.pending.length < fuel := by
          rw [hidle]; rw [hpend] at hfuel; simp at hfuel; omega
        obtain ⟨ihA, ihB⟩ := ih c1.idle ret1 hlen
        have hstep : readContentLengthLoop K (fuel + 1) c ret =
            readContentLengthLoop K fuel c1.idle ret1 := by
          simp [readContentLengthLoop, he, hconn]
        have hpre : c.remaining = pre ++ c.pending.flatten := by
          rw [hreads.remaining]; simp [Client.remaining, hrx, hp]
        constructor
        · intro r rest hrest
          rw [hrem, hs, ← hrem1] at hrest
          obtain ⟨c2, pre2, h2, hr2, hrem2⟩ := ihA r rest hrest
          exact ⟨c2, pre ++ pre2, by rw [hstep, h2], hri.trans hr2, hrem2⟩
        · intro hnone
          rw [hrem, hs, ← hrem1] at hnone
          obtain ⟨c2, h2, hr2, hrx2, hp2⟩ := ihB hnone
          refine ⟨c2, by rw [hstep, h2], ?_, hrx2, hp2⟩
          rw [hpre, ← hrem1]
          exact hri.trans hr2

theorem wrapInt_of_range (x : Int) (h0 : 0 ≤ x) (h1 : x < 2147483648) : wrapInt x = x := by
  unfold wrapInt; omega

theorem le_decimalFrom (ds : List Nat) : ∀ acc, acc ≤ decimalFrom acc ds := by
  induction ds with
  | nil => intro acc; exact le_refl _
  | cons d ds ih =>
    intro acc
    have := ih (acc * 10 + (d - 48))
    simp only [decimalFrom, List.foldl_cons] at this ⊢
    omega

theorem lengthRest_digits (K : Codes) (t : Nat) (rest : List Nat) (ht : t = 13 ∨ t = 10) :
    ∀ (ds : List Nat) (acc : Nat), IsDigits ds → decimalFrom acc ds < 2147483648 →
      lengthRest K (ds ++ t :: rest) (acc : Int) =
        some (if decimalFrom acc ds = 0 then K.E_INVALID else (decimalFrom acc ds : Int), rest) := by
  intro ds
  induction ds with
  | nil =>
    intro acc _ _
    have : (t == 13 || t == 10) = true := by rcases ht with h | h <;> simp [h]
    simp [lengthRest, this, decimalFrom]
  | cons d ds ih =>
    intro acc hd hv
    have hd1 := hd d (List.mem_cons_self _ _)
    have hnt : (d == 13 || d == 10) = false := by
      have h13 : d ≠ 13 := by omega
      have h10 : d ≠ 10 := by omega
      simp [h13, h10]
    have hv1 : decimalFrom (acc * 10 + (d - 48)) ds < 2147483648 := by
      simpa [decimalFrom] using hv
    have hle := le_decimalFrom ds (acc * 10 + (d - 48))
    have hw : wrapInt ((acc : Int) * 10 + ((d : Int) - 48)) = ((acc * 10 + (d - 48) : Nat) : Int) := by
      rw [wrapInt_of_range] <;> omega
    have := ih (acc * 10 + (d - 48)) (fun x hx => hd x (List.mem_cons_of_mem _ hx)) hv1
    rw [show decimalFrom acc (d :: ds) = decimalFrom (acc * 10 + (d - 48)) ds from rfl, ← this]
    simp only [lengthRest, List.cons_append, hnt, Bool.false_eq_true, if_false, hw]
    rfl

theorem scanRest_append_of_none (cfg : Config) (str : List Nat) (b : List Nat) :
    ∀ (a : List Nat) (idx : Nat), scanRest cfg str a idx = none →
      scanRest cfg str (a ++ b) idx = scanRest cfg str b (scanIndex cfg str a idx) := by
  intro a
  induction a with
  | nil => intro idx _; rfl
  | cons ch a ih =>
    intro idx h
    by_cases hm : charMatches cfg ch (cstrAt str idx) = true
    · by_cases hend : (cstrAt str (idx + 1) == 0) = true
      · simp [scanRest, hm, hend] at h
      · simp only [scanRest, hm, hend, if_true, Bool.false_eq_true, if_false] at h
        simpa [scanRest, scanIndex, hm, hend] using ih (idx + 1) h
    · simp only [scanRest, hm, Bool.false_eq_true, if_false] at h
      simpa [scanRest, scanIndex, hm] using ih 0 h

theorem scanIndex_append_singleton (cfg : Config) (str : List Nat) (x : Nat)
    (hx : ∀ i, charMatches cfg x (cstrAt str i) = false) :
    ∀ (p : List Nat) (idx : Nat), scanIndex cfg str (p ++ [x]) idx = 0 := by
  intro p
  induction p with
  | nil => intro idx; simp [scanIndex, hx]
  | cons ch p ih =>
    intro idx
    by_cases hm : charMatches cfg ch (cstrAt str idx) = true
    · simpa [scanIndex, hm] using ih (idx + 1)
    · simpa [scanIndex, hm] using ih 0

theorem cstrAt_mem_or_zero (str : List Nat) (i : Nat) : cstrAt str i ∈ str ∨ cstrAt str i = 0 := by
  by_cases h : i < str.length
  · left; rw [cstrAt_of_lt str i h]; exact List.getElem_mem h
  · right; unfold cstrAt; exact List.getD_eq_default _ _ (by omega)

theorem byteMatches_lf (ci : Bool) (p : Nat) (h : byteMatches ci 10 p) : p = 42 ∨ p = 10 := by
  rcases h with h | h
  · exact Or.inl h
  · right
    cases ci
    · simpa using h.symm
    · simp only [if_true, lowerByte] at h
      split_ifs at h <;> omega

theorem charMatches_lf_false (cfg : Config) (str : List Nat) (h10 : 10 ∉ str) (h42 : 42 ∉ str)
    (i : Nat) : charMatches cfg 10 (cstrAt str i) = false := by
  by_contra hc
  have hm : charMatches cfg 10 (cstrAt str i) = true := by simpa using hc
  have hb := byteMatches_lf _ _ ((charMatches_iff cfg _ _).1 hm)
  rcases cstrAt_mem_or_zero str i with hmem | h0
  · rcases hb with hb | hb
    · exact h42 (hb ▸ hmem)
    · exact h10 (hb ▸ hmem)
  · rw [h0] at hb; omega

theorem scanRest_none_of_no_window (cfg : Config) (str : List Nat) (hne : str ≠ []) (hz : 0 ∉ str)
    (pre : List Nat) (hno : ¬ WindowMatch cfg.case_insensitive str pre) :
    scanRest cfg str pre 0 = none := by
  cases hs : scanRest cfg str pre 0 with
  | none => rfl
  | some rest =>
    exfalso
    obtain ⟨p, w1, he, hw⟩ := scanRest_window cfg str hz pre 0 [] rest
      (List.length_pos.2 hne) (by simp) hs
    exact hno ⟨p, w1, rest, by simpa using he, hw⟩

theorem scanRest_skip (cfg : Config) (str : List Nat) (hne : str ≠ []) (hz : 0 ∉ str)
    (h10 : 10 ∉ str) (h42 : 42 ∉ str) (pre s : List Nat) (hline : EndsLine pre)
    (hno : ¬ WindowMatch cfg.case_insensitive str pre) :
    scanRest cfg str (pre ++ s) 0 = scanRest cfg str s 0 := by
  rcases hline with h | h
  · simp [h]
  · rw [scanRest_append_of_none cfg str s pre 0 (scanRest_none_of_no_window cfg str hne hz pre hno)]
    obtain ⟨p, hp⟩ : ∃ p, pre = p ++ [10] := by
      rcases List.eq_nil_or_concat pre with h0 | ⟨p, x, hx⟩
      · simp [h0] at h
      · refine ⟨p, ?_⟩
        rw [hx] at h
        simp at h
        rw [hx, h]; simp
    rw [hp, scanIndex_append_singleton cfg str 10 (charMatches_lf_false cfg str h10 h42)]

theorem not_windowMatch_of_short (ci : Bool) (str pre : List Nat) (h : pre.length < str.length) :
    ¬ WindowMatch ci str pre := by
  rintro ⟨p, w, q, he, hw⟩
  have h1 := hw.length_eq
  have h2 := congrArg List.length he
  simp at h2
  omega

theorem readContentLength_spec (K : Codes) (cfg : Config) (c : Client) (mid : List Nat)
    (r : Int) (rest : List Nat)
    (hscan : scanRest cfg contentLengthPattern c.remaining 0 = some mid)
    (hlen : lengthRest K mid 0 = some (r, rest)) :
    ∃ c1 pre, readContentLength K cfg c = some (r, c1) ∧ Reads c pre c1 ∧ c1.remaining = rest := by
  obtain ⟨c1, pre1, hw, hr1, hrem1⟩ :=
    (waitForString_spec K cfg contentLengthPattern c (by decide) (by decide)).1 _ hscan
  obtain ⟨c2, pre2, hl, hr2, hrem2⟩ :=
    (readContentLengthLoop_spec K (c1.pending.length + 1) c1 0 (by omega)).1 r rest
      (by rw [hrem1]; exact hlen)
  exact ⟨c2, pre1 ++ pre2, by simp [readContentLength, hw, hl], hr1.trans hr2, hrem2⟩

theorem readContentLength_header (K : Codes) (cfg : Config) (c : Client)
    (pre ds rest : List Nat) (t : Nat)
    (hline : EndsLine pre)
    (hfirst : ¬ WindowMatch cfg.case_insensitive contentLengthPattern pre)
    (hds : IsDigits ds) (hfit : decimalValue ds < 2147483648) (ht : t = 13 ∨ t = 10)
    (h : c.remaining = pre ++ contentLengthPattern ++ ds ++ t :: rest) :
    ∃ c1, Reads c (pre ++ contentLengthPattern ++ ds ++ [t]) c1 ∧ c1.remaining = rest ∧
      readContentLength K cfg c =
        some (if decimalValue ds = 0 then K.E_INVALID else (decimalValue ds : Int), c1) := by
  have hscan : scanRest cfg contentLengthPattern c.remaining 0 = some (ds ++ t :: rest) := by
    rw [h, List.append_assoc, List.append_assoc,
      scanRest_skip cfg contentLengthPattern (by decide) (by decide) (by decide) (by decide)
        pre _ hline hfirst]
    have hw : List.Forall₂ (byteMatches cfg.case_insensitive) contentLengthPattern
        (contentLengthPattern.drop 0) := by
      simp only [List.drop_zero, contentLengthPattern]
      repeat first
        | exact List.Forall₂.nil
        | refine List.Forall₂.cons (byteMatches_self _ _) ?_
    exact scanRest_of_window cfg contentLengthPattern (by decide) (ds ++ t :: rest)
      contentLengthPattern 0 (by decide) hw
  have hlen := lengthRest_digits K t rest ht ds 0 hds hfit
  obtain ⟨c1, p, hres, hr, hrem⟩ := readContentLength_spec K cfg c _ _ rest hscan
    (by simpa using hlen)
  have hp : p = pre ++ contentLengthPattern ++ ds ++ [t] :=
    hr.pre_eq hrem (by rw [h]; simp)
  exact ⟨c1, hp ▸ hr, hrem, by rw [hres]; rfl⟩

theorem Wrote.remaining {c c1 : Client} (h : Wrote c c1) : c1.remaining = c.remaining := by
  simp [Client.remaining, h.rx, h.pending]

theorem Wrote.write (c : Client) (b : Nat) : Wrote c (c.write b) := ⟨rfl, rfl, rfl, rfl, rfl⟩

theorem released_close (c : Client) : (close c).released = true := by
  simp [close, Client.flush, Client.stop, Client.released]

theorem clientPrint_write (c : Client) (b : Nat) : clientPrint.write c b = (c.write b, 1) := rfl

theorem clientPrint_print (str : List Nat) :
    ∀ c : Client, clientPrint.print c str = ({ c with tx := c.tx ++ str }, (str.length : Int)) := by
  induction str with
  | nil => intro c; simp [Print.print]
  | cons b rest ih =>
    intro c
    simp only [Print.print, clientPrint_write, ih]
    refine Prod.ext ?_ ?_
    · simp [Client.write]
    · simp only [List.length_cons]
      push_cast
      ring

theorem client_print_eq (c : Client) (str : List Nat) :
    c.print str = { c with tx := c.tx ++ str } := by
  simp [Client.print, clientPrint_print]

theorem client_println_eq (c : Client) (str : List Nat) :
    c.println str = { c with tx := c.tx ++ str ++ [13, 10] } := by
  simp [Client.println, Print.println, clientPrint_print]

theorem print_encoded_string_loop_client (sg : Bool) (str : List Nat) :
    ∀ (c : Client) (n : Int), print_encoded_string_loop sg clientPrint str c n =
      ({ c with tx := c.tx ++ percentEncode sg str },
        n + ((percentEncode sg str).length : Int)) := by
  induction str with
  | nil => intro c n; simp [print_encoded_string_loop, percentEncode]
  | cons ch rest ih =>
    intro c n
    by_cases hu : unreserved ch = true
    · simp only [print_encoded_string_loop, hu, if_true, clientPrint_write, ih]
      refine Prod.ext ?_ ?_
      · simp [Client.write, percentEncode, hu]
      · simp only [percentEncode, List.flatMap_cons, hu, if_true, List.length_append,
          List.length_singleton]
        push_cast
        ring
    · simp only [print_encoded_string_loop, hu, Bool.false_eq_true, if_false, clientPrint_write, ih]
      refine Prod.ext ?_ ?_
      · simp [Client.write, percentEncode, hu]
      · simp only [percentEncode, List.flatMap_cons, hu, Bool.false_eq_true, if_false,
          List.length_append, List.length_cons, List.length_nil]
        push_cast
        ring

theorem print_encoded_string_client (sg : Bool) (c : Client) (str : List Nat) :
    print_encoded_string sg clientPrint c str =
      ({ c with tx := c.tx ++ percentEncode sg str }, ((percentEncode sg str).length : Int)) := by
  simp [print_encoded_string, print_encoded_string_loop_client]

theorem unreserved_iff (b : Nat) : unreserved b = true ↔ IsUnreservedByte b := by
  simp only [unreserved, IsUnreservedByte, Bool.or_eq_true, Bool.and_eq_true, decide_eq_true_eq,
    beq_iff_eq, ge_iff_le]
  tauto

theorem TO_HEX_eq_hexUpper (n : Nat) (h : n < 16) : TO_HEX (n : Int) = hexUpper n := by
  interval_cases n <;> decide

theorem charValue_of_plain (sg : Bool) (b : Nat) (h : sg = true → b < 128) :
    charValue sg b = (b : Int) := by
  unfold charValue
  cases sg with
  | false => simp
  | true =>
    have hb := h rfl
    have hn : ¬ 128 ≤ b := by omega
    simp [hn]

theorem tdiv_charValue (sg : Bool) (b : Nat) (h : sg = true → b < 128) :
    Int.tdiv (charValue sg b) 16 = ((b / 16 : Nat) : Int) := by
  rw [charValue_of_plain sg b h]; rfl

theorem tmod_charValue (sg : Bool) (b : Nat) (h : sg = true → b < 128) :
    Int.tmod (charValue sg b) 16 = ((b % 16 : Nat) : Int) := by
  rw [charValue_of_plain sg b h]; rfl

theorem percentEncode_cons_reserved (sg : Bool) (b : Nat) (rest : List Nat)
    (hu : ¬ unreserved b = true) (h : sg = true → b < 128) :
    percentEncode sg (b :: rest) =
      37 :: TO_HEX ((b / 16 : Nat) : Int) :: TO_HEX ((b % 16 : Nat) : Int) ::
        percentEncode sg rest := by
  simp [percentEncode, hu, tdiv_charValue sg b h, tmod_charValue sg b h]

theorem percentEncode_eq_spec (sg : Bool) (str : List Nat)
    (h : ∀ b ∈ str, b < 256 ∧ (sg = true → b < 128)) :
    percentEncode sg str = percentEncodeSpec str := by
  induction str with
  | nil => rfl
  | cons b rest ih =>
    have hb := h b (List.mem_cons_self _ _)
    have hrest := ih (fun x hx => h x (List.mem_cons_of_mem _ hx))
    simp only [percentEncode, percentEncodeSpec, List.flatMap_cons] at hrest ⊢
    rw [hrest]
    congr 1
    by_cases hu : unreserved b = true
    · rw [if_pos hu, if_pos ((unreserved_iff b).1 hu)]
    · have hs : ¬ IsUnreservedByte b := fun hs => hu ((unreserved_iff b).2 hs)
      have hlt := hb.1
      rw [if_neg hu, if_neg hs, tdiv_charValue sg b hb.2, tmod_charValue sg b hb.2,
        TO_HEX_eq_hexUpper _ (by omega), TO_HEX_eq_hexUpper _ (by omega)]

theorem print_encoded_string_plain (sg : Bool) (c : Client) (str : List Nat)
    (h : ∀ b ∈ str, b < 256 ∧ (sg = true → b < 128)) :
    (print_encoded_string sg clientPrint c str).1 =
      { c with tx := c.tx ++ percentEncodeSpec str } ∧
    (print_encoded_string sg clientPrint c str).2 = ((percentEncodeSpec str).length : Int) := by
  rw [print_encoded_string_client, percentEncode_eq_spec sg str h]
  exact ⟨rfl, rfl⟩

theorem writeHttpHeader_eq (K : Codes) (cfg : Config) (contentLength : Int) (c : Client) :
    writeHttpHeader K cfg contentLength c = { c with tx := c.tx ++ httpHeaderBytes K cfg contentLength } := by
  unfold writeHttpHeader httpHeaderBytes
  simp only [client_print_eq, client_println_eq, print_encoded_string_client]
  split_ifs <;> simp

theorem writeDeleteHeader_eq (K : Codes) (cfg : Config) (deviceId streamName : List Nat)
    (contentLength : Int) (c : Client) :
    writeDeleteHeader K cfg deviceId streamName contentLength c =
      { c with tx := c.tx ++ (bytes "DELETE /v2/devices/" ++ percentEncode K.charSigned deviceId ++
          bytes "/streams/" ++ percentEncode K.charSigned streamName ++ bytes "/values" ++
          bytes " HTTP/1.0" ++ [13, 10] ++ httpHeaderBytes K cfg contentLength) } := by
  unfold writeDeleteHeader
  simp only [client_print_eq, client_println_eq, print_encoded_string_client, writeHttpHeader_eq]
  simp

theorem nullPrint_print (str : List Nat) :
    ∀ u : Unit, nullPrint.print u str = ((), (str.length : Int)) := by
  induction str with
  | nil => intro u; rfl
  | cons b rest ih =>
    intro u
    have hw : nullPrint.write u b = ((), 1) := rfl
    simp only [Print.print, hw, ih, List.length_cons]
    refine Prod.ext rfl ?_
    simp only
    push_cast
    ring

theorem deleteBody_length (fromTs endTs : List Nat) :
    (deleteBody fromTs endTs).length = 20 + fromTs.length + endTs.length := by
  have h1 : (bytes "\x7b\"from\":\"").length = 9 := by decide
  have h2 : (bytes "\",\"end\":\"").length = 9 := by decide
  have h3 : (bytes "\"\x7d").length = 2 := by decide
  simp only [deleteBody, List.length_append, h1, h2, h3]
  omega

theorem write_delete_values_null (fromTs endTs : List Nat) :
    write_delete_values nullPrint () fromTs endTs =
      ((), ((20 + fromTs.length + endTs.length : Nat) : Int)) := by
  have h1 : (bytes "\x7b\"from\":\"").length = 9 := by decide
  have h2 : (bytes "\",\"end\":\"").length = 9 := by decide
  have h3 : (bytes "\"\x7d").length = 2 := by decide
  simp only [write_delete_values, nullPrint_print, h1, h2, h3]
  refine Prod.ext rfl ?_
  simp only
  push_cast
  ring

theorem write_delete_values_client (c : Client) (fromTs endTs : List Nat) :
    write_delete_values clientPrint c fromTs endTs =
      ({ c with tx := c.tx ++ deleteBody fromTs endTs },
        ((20 + fromTs.length + endTs.length : Nat) : Int)) := by
  have h1 : (bytes "\x7b\"from\":\"").length = 9 := by decide
  have h2 : (bytes "\",\"end\":\"").length = 9 := by decide
  have h3 : (bytes "\"\x7d").length = 2 := by decide
  simp only [write_delete_values, clientPrint_print, h1, h2, h3]
  refine Prod.ext ?_ ?_
  · simp [deleteBody]
  · simp only
    push_cast
    ring

theorem waitForString_total (K : Codes) (cfg : Config) (str : List Nat) (c : Client)
    (hne : str ≠ []) (hz : 0 ∉ str) :
    ∃ r c1, waitForString K cfg str c = some (r, c1) ∧ c1.tx = c.tx := by
  obtain ⟨hA, hB⟩ := waitForString_spec K cfg str c hne hz
  cases hs : scanRest cfg str c.remaining 0 with
  | none =>
    obtain ⟨c1, h1, hr, _⟩ := hB hs
    exact ⟨_, close c1, h1, hr.tx⟩
  | some rest =>
    obtain ⟨c1, _, h1, hr, _⟩ := hA rest hs
    exact ⟨_, c1, h1, hr.tx⟩

theorem readStatusCodeLoop_total (K : Codes) (closeClient : Bool) (c : Client) (rc : Int)
    (ret : Nat) :
    ∃ r c1, readStatusCodeLoop K closeClient (c.pending.length + 1) c rc ret = some (r, c1) ∧
      c1.tx = c.tx := by
  obtain ⟨hA, hB⟩ := readStatusCodeLoop_spec K closeClient (c.pending.length + 1) c rc ret (by omega)
  cases hs : statusRest c.remaining rc ret with
  | none =>
    obtain ⟨c1, h1, hr, _⟩ := hB hs
    refine ⟨_, _, h1, ?_⟩
    cases closeClient <;> simpa [close, Client.flush, Client.stop] using hr.tx
  | some p =>
    obtain ⟨c1, _, h1, hr, _⟩ := hA p.1 p.2 hs
    refine ⟨_, _, h1, ?_⟩
    cases closeClient <;> simpa [close, Client.flush, Client.stop] using hr.tx

theorem readStatusCode_total (K : Codes) (cfg : Config) (closeClient : Bool) (c : Client) :
    ∃ r c1, readStatusCode K cfg closeClient c = some (r, c1) ∧ c1.tx = c.tx := by
  obtain ⟨r, c1, hw, htx⟩ := waitForString_total K cfg statusPattern c (by decide) (by decide)
  by_cases hr : r ≠ K.E_OK
  · refine ⟨r, if closeClient then close c1 else c1, by simp [readStatusCode, hw, hr], ?_⟩
    cases closeClient <;> simpa [close, Client.flush, Client.stop] using htx
  · obtain ⟨r2, c2, hl, htx2⟩ := readStatusCodeLoop_total K closeClient c1 0 0
    refine ⟨r2, c2, ?_, htx2.trans htx⟩
    simp only [readStatusCode, hw, hr, if_false, hl]

theorem percentEncode_of_unreserved (sg : Bool) (str : List Nat)
    (h : ∀ b ∈ str, unreserved b = true) : percentEncode sg str = str := by
  induction str with
  | nil => rfl
  | cons b rest ih =>
    have hb := h b (List.mem_cons_self _ _)
    have hrest := ih (fun x hx => h x (List.mem_cons_of_mem _ hx))
    simp only [percentEncode, List.flatMap_cons, hb, if_true] at hrest ⊢
    rw [hrest]; rfl

theorem readChunk_tx (BUF_LEN : Nat) :
    ∀ (avail : List Nat) (c : Client) (buf : List Nat),
      (readChunk BUF_LEN avail c buf).2.tx = c.tx := by
  intro avail
  induction avail with
  | nil => intro c buf; rfl
  | cons ch rest ih =>
    intro c buf
    by_cases h : buf.length < BUF_LEN
    · simp only [readChunk, h, if_true]
      rw [ih]; rfl
    · simp only [readChunk, h, if_false]

theorem idle_tx (c : Client) : c.idle.tx = c.tx := (Reads.idle c).tx

theorem close_tx (c : Client) : (close c).tx = c.tx := rfl

theorem jsonBodyLoop_tx {P : Type} (K : Codes) (T : Tokenizer P) (BUF_LEN : Nat) (length : Int) :
    ∀ (fuel : Nat) (c : Client) (index : Int) (p : P) (result : jsonlite_result)
      (r : Int) (c1 : Client) (p1 : P),
      jsonBodyLoop K T BUF_LEN length fuel c index p result = some (r, c1, p1) → c1.tx = c.tx := by
  intro fuel
  induction fuel with
  | zero => intro c index p result r c1 p1 h; simp [jsonBodyLoop] at h
  | succ fuel ih =>
    intro c index p result r c1 p1 h
    have hchunk := readChunk_tx BUF_LEN c.rx c []
    unfold jsonBodyLoop at h
    simp only at h
    split_ifs at h
    all_goals
      first
        | (have h0 := ih _ _ _ _ _ _ _ h
           rw [h0, idle_tx, hchunk])
        | (simp only [Option.some.injEq, Prod.mk.injEq] at h
           rw [← h.2.1, close_tx, hchunk])
        | (simp only [Option.some.injEq, Prod.mk.injEq] at h
           rw [← h.2.1, close_tx])

theorem readContentLength_total (K : Codes) (cfg : Config) (c : Client) :
    ∃ r c1, readContentLength K cfg c = some (r, c1) ∧ c1.tx = c.tx := by
  obtain ⟨r, c1, hw, htx⟩ :=
    waitForString_total K cfg contentLengthPattern c (by decide) (by decide)
  by_cases hr : r ≠ K.E_OK
  · exact ⟨r, c1, by simp [readContentLength, hw, hr], htx⟩
  · obtain ⟨hA, hB⟩ := readContentLengthLoop_spec K (c1.pending.length + 1) c1 0 (by omega)
    cases hs : lengthRest K c1.remaining 0 with
    | none =>
      obtain ⟨c2, h2, hr2, _⟩ := hB hs
      exact ⟨K.E_DISCONNECTED, c2, by simp only [readContentLength, hw, hr, if_false, h2],
        hr2.tx.trans htx⟩
    | some q =>
      obtain ⟨c2, _, h2, hr2, _⟩ := hA q.1 q.2 hs
      exact ⟨q.1, c2, by simp only [readContentLength, hw, hr, if_false, h2], hr2.tx.trans htx⟩

theorem readJsonBody_tx {P : Type} (K : Codes) (cfg : Config) (T : Tokenizer P) (BUF_LEN : Nat)
    (c : Client) (r : Int) (c1 : Client) (p1 : P)
    (h : readJsonBody K cfg T BUF_LEN c = some (r, c1, p1)) : c1.tx = c.tx := by
  obtain ⟨len, c2, hcl, htx2⟩ := readContentLength_total K cfg c
  unfold readJsonBody at h
  rw [hcl] at h
  simp only at h
  by_cases hneg : len < 0
  · rw [if_pos hneg] at h
    simp only [Option.some.injEq, Prod.mk.injEq] at h
    rw [← h.2.1, close_tx, htx2]
  · rw [if_neg hneg] at h
    obtain ⟨idx, c3, hsk, htx3⟩ :=
      waitForString_total K cfg blankLinePattern c2 (by decide) (by decide)
    unfold skipHttpHeader at h
    rw [hsk] at h
    simp only at h
    by_cases hi : idx ≠ K.E_OK
    · rw [if_pos hi] at h
      simp only [Option.some.injEq, Prod.mk.injEq] at h
      rw [← h.2.1, close_tx, htx3, htx2]
    · rw [if_neg hi] at h
      rw [jsonBodyLoop_tx K T BUF_LEN len _ _ _ _ _ _ _ _ h, htx3, htx2]

theorem listStreamValuesRequest_eq (K : Codes) (cfg : Config) (deviceId streamName : List Nat)
    (query : Option (List Nat)) (c : Client) :
    listStreamValuesRequest K cfg deviceId streamName query c =
      { c with tx := c.tx ++ (bytes "GET /v2/devices/" ++ percentEncode K.charSigned deviceId ++
          bytes "/streams/" ++ percentEncode K.charSigned streamName ++ bytes "/values" ++
          queryPart query ++ bytes " HTTP/1.0" ++ [13, 10] ++ httpHeaderBytes K cfg (-1)) } := by
  unfold listStreamValuesRequest
  cases query with
  | none =>
    simp only [client_print_eq, client_println_eq, print_encoded_string_client,
      writeHttpHeader_eq, queryPart]
    simp
  | some q =>
    by_cases hq : cstrAt q 0 = 63
    · have hh : q.head? = some 63 := by
        cases q with
        | nil => simp [cstrAt] at hq
        | cons x xs => simpa [cstrAt] using hq
      simp only [client_print_eq, client_println_eq, print_encoded_string_client,
        writeHttpHeader_eq, queryPart, hq, hh, ne_eq, not_true_eq_false, if_false, if_true]
      simp
    · have hh : ¬ q.head? = some 63 := by
        cases q with
        | nil => simp
        | cons x xs => simpa [cstrAt] using hq
      simp only [client_print_eq, client_println_eq, print_encoded_string_client,
        writeHttpHeader_eq, queryPart, hq, hh, ne_eq, not_false_eq_true, if_false, if_true]
      simp

theorem listStreamValues_tx {P : Type} (K : Codes) (cfg : Config) (T : Tokenizer P)
    (deviceId streamName : List Nat) (query : Option (List Nat)) (c : Client)
    (hconn : c.connectOk = true) (r : Int) (c1 : Client)
    (h : listStreamValues K cfg T deviceId streamName query c = some (r, c1)) :
    c1.tx = (listStreamValuesRequest K cfg deviceId streamName query (c.connect).2).tx := by
  have hc : c.connect = (true, (c.connect).2) := by simp [Client.connect, hconn]
  obtain ⟨st, c2, hst, htx2⟩ := readStatusCode_total K cfg false
    (listStreamValuesRequest K cfg deviceId streamName query (c.connect).2)
  unfold listStreamValues at h
  rw [hc] at h
  simp only at h
  rw [hst] at h
  simp only at h
  by_cases h200 : st = 200
  · rw [if_pos h200] at h
    cases hb : readStreamValue K cfg T c2 with
    | none => rw [hb] at h; simp at h
    | some q =>
      obtain ⟨rb, c3, p3⟩ := q
      rw [hb] at h
      simp only [Option.some.injEq, Prod.mk.injEq] at h
      rw [← h.2, close_tx, readJsonBody_tx K cfg T 64 c2 rb c3 p3 hb, htx2]
  · rw [if_neg h200] at h
    simp only [Option.some.injEq, Prod.mk.injEq] at h
    rw [← h.2, close_tx, htx2]

theorem waitForString_code (K : Codes) (cfg : Config) (str : List Nat) (c : Client)
    (hne : str ≠ []) (hz : 0 ∉ str) :
    (waitForString K cfg str c).map Prod.fst =
      some (if (scanRest cfg str c.remaining 0).isSome then K.E_OK else K.E_DISCONNECTED) := by
  obtain ⟨hA, hB⟩ := waitForString_spec K cfg str c hne hz
  cases hs : scanRest cfg str c.remaining 0 with
  | none =>
    obtain ⟨c1, h1, _⟩ := hB hs
    simp [h1]
  | some rest =>
    obtain ⟨c1, _, h1, _⟩ := hA rest hs
    simp [h1]

theorem caseVariant_lower {a b : Nat} (h : CaseVariant a b) : lowerByte b = lowerByte a := by
  rcases h with h | h
  · rw [h]
  · rw [h]
    unfold swapCase lowerByte
    split_ifs <;> omega

theorem caseVariant_eq_iff {a b : Nat} (h : CaseVariant a b) (k : Nat) (hk : k < 65) :
    b = k ↔ a = k := by
  rcases h with h | h
  · rw [h]
  · rw [h]
    unfold swapCase
    split_ifs <;> omega

theorem charMatches_caseVariant (cfg : Config) (hci : cfg.case_insensitive = true)
    {ch ch2 p p2 : Nat} (hch : CaseVariant ch ch2) (hp : CaseVariant p p2) :
    charMatches cfg ch2 p2 = charMatches cfg ch p := by
  have key : byteMatches cfg.case_insensitive ch2 p2 ↔ byteMatches cfg.case_insensitive ch p := by
    unfold byteMatches
    rw [hci]
    simp only [if_true, caseVariant_lower hch, caseVariant_lower hp,
      caseVariant_eq_iff hp 42 (by omega)]
  have h1 := charMatches_iff cfg ch2 p2
  have h2 := charMatches_iff cfg ch p
  cases hA : charMatches cfg ch2 p2 <;> cases hB : charMatches cfg ch p <;> simp_all

theorem cstrAt_caseVariant {str str2 : List Nat} (h : List.Forall₂ CaseVariant str str2) :
    ∀ i, CaseVariant (cstrAt str i) (cstrAt str2 i) := by
  induction h with
  | nil => intro i; exact Or.inl rfl
  | cons hab _ ih =>
    intro i
    cases i with
    | zero => simpa [cstrAt] using hab
    | succ i => simpa [cstrAt] using ih i

theorem scanRest_caseVariant (cfg : Config) (hci : cfg.case_insensitive = true)
    {str str2 : List Nat} (hstr : List.Forall₂ CaseVariant str str2) {s s2 : List Nat}
    (hs : List.Forall₂ CaseVariant s s2) :
    ∀ idx, (scanRest cfg str2 s2 idx).isSome = (scanRest cfg str s idx).isSome := by
  induction hs with
  | nil => intro idx; rfl
  | cons hab _ ih =>
    intro idx
    have hm := charMatches_caseVariant cfg hci hab (cstrAt_caseVariant hstr idx)
    have hz : (cstrAt str2 (idx + 1) == 0) = (cstrAt str (idx + 1) == 0) := by
      have := caseVariant_eq_iff (cstrAt_caseVariant hstr (idx + 1)) 0 (by omega)
      by_cases h0 : cstrAt str (idx + 1) = 0
      · simp [h0, this.2 h0]
      · have h1 : ¬ cstrAt str2 (idx + 1) = 0 := fun h => h0 (this.1 h)
        simp [h0, h1]
    simp only [scanRest, hm, hz]
    split_ifs
    · rfl
    · exact ih (idx + 1)
    · exact ih 0

theorem not_mem_zero_caseVariant {str str2 : List Nat} (h : List.Forall₂ CaseVariant str str2)
    (hz : 0 ∉ str) : 0 ∉ str2 := by
  induction h with
  | nil => simp
  | cons hab _ ih =>
    rename_i a b l1 l2
    intro hmem
    rcases List.mem_cons.1 hmem with h0 | h0
    · exact hz ((caseVariant_eq_iff hab 0 (by omega)).1 h0.symm ▸ List.mem_cons_self _ _)
    · exact ih (fun h => hz (List.mem_cons_of_mem _ h)) h0

theorem caseVariant_self (a : Nat) : CaseVariant a a := Or.inl rfl

theorem caseVariant_swap (a : Nat) : CaseVariant a (swapCase a) := Or.inr rfl

theorem hexValue_TO_HEX (n : Nat) (h : n < 16) : hexValue (TO_HEX (n : Int)) = n := by
  interval_cases n <;> decide

theorem TO_HEX_unreserved (n : Nat) (h : n < 16) : unreserved (TO_HEX (n : Int)) = true := by
  interval_cases n <;> decide

theorem percentDecode_cons_other (b : Nat) (rest : List Nat) (h : b ≠ 37) :
    percentDecode (b :: rest) = b :: percentDecode rest := by
  rw [percentDecode.eq_def]
  simp only [if_neg h]

theorem percentDecode_escape (h l : Nat) (more : List Nat) :
    percentDecode (37 :: h :: l :: more) = (hexValue h * 16 + hexValue l) :: percentDecode more := by
  rw [percentDecode.eq_def]
  simp only [if_true]

theorem percentDecode_percentEncode (sg : Bool) (str : List Nat)
    (h : ∀ b ∈ str, b < 256 ∧ (sg = true → b < 128)) :
    percentDecode (percentEncode sg str) = str := by
  induction str with
  | nil => rfl
  | cons b rest ih =>
    have hb := (h b (List.mem_cons_self _ _)).1
    have hp := (h b (List.mem_cons_self _ _)).2
    have hrest := ih (fun x hx => h x (List.mem_cons_of_mem _ hx))
    by_cases hu : unreserved b = true
    · have h37 : b ≠ 37 := by
        intro e; rw [e] at hu; exact absurd hu (by decide)
      have e : percentEncode sg (b :: rest) = b :: percentEncode sg rest := by
        simp [percentEncode, hu]
      rw [e, percentDecode_cons_other b _ h37]
      exact congrArg (b :: ·) hrest
    · rw [percentEncode_cons_reserved sg b rest hu hp, percentDecode_escape]
      rw [hexValue_TO_HEX _ (by omega), hexValue_TO_HEX _ (by omega)]
      have hv : b / 16 * 16 + b % 16 = b := by omega
      rw [hv]
      exact congrArg (b :: ·) hrest

theorem percentEncode_safe (sg : Bool) (str : List Nat)
    (h : ∀ b ∈ str, b < 256 ∧ (sg = true → b < 128)) :
    ∀ x ∈ percentEncode sg str, IsUnreservedByte x ∨ x = 37 := by
  induction str with
  | nil => intro x hx; simp [percentEncode] at hx
  | cons b rest ih =>
    have hb := (h b (List.mem_cons_self _ _)).1
    have hp := (h b (List.mem_cons_self _ _)).2
    have hrest := ih (fun x hx => h x (List.mem_cons_of_mem _ hx))
    intro x hx
    by_cases hu : unreserved b = true
    · have e : percentEncode sg (b :: rest) = b :: percentEncode sg rest := by
        simp [percentEncode, hu]
      rw [e] at hx
      rcases List.mem_cons.1 hx with h0 | h0
      · left; rw [h0]; exact (unreserved_iff b).1 hu
      · exact hrest x h0
    · rw [percentEncode_cons_reserved sg b rest hu hp] at hx
      simp only [List.mem_cons] at hx
      rcases hx with h0 | h0 | h0 | h0
      · exact Or.inr h0
      · left; rw [h0]; exact (unreserved_iff _).1 (TO_HEX_unreserved _ (by omega))
      · left; rw [h0]; exact (unreserved_iff _).1 (TO_HEX_unreserved _ (by omega))
      · exact hrest x h0

/-- C1 (as stated, refuted): the pattern `*a` has exactly one wildcard and the
stream `bba`, delivered in two bursts before the peer closes, has the matching
window `ba`; `waitForString` returns `E_DISCONNECTED`, not `E_OK`. -/
theorem waitForString_misses_window :
    ([42, 97] : List Nat).count 42 = 1 ∧
    WindowMatch sampleConfig.case_insensitive [42, 97] [98, 98, 97] ∧
    (waitForString sampleCodes sampleConfig [42, 97] (Client.ofStream [98] [[98, 97]])).map Prod.fst
      = some sampleCodes.E_DISCONNECTED ∧
    sampleCodes.E_DISCONNECTED ≠ sampleCodes.E_OK := by
  refine ⟨by decide, ⟨[98], [98, 97], [], rfl, ?_⟩, by decide, by decide⟩
  exact List.Forall₂.cons (byteMatches_star _ _)
    (List.Forall₂.cons (byteMatches_self _ _) List.Forall₂.nil)

/-- C1 (amended): for every non-empty pattern without NUL and every stream
delivered in full before the peer closes, however it is split into bursts,
`waitForString` returns `E_OK` when the restart-on-mismatch scan of the whole
stream completes the pattern and `E_DISCONNECTED` otherwise; when the scan
completes, some contiguous window of the stream matches the pattern, and a
stream that begins with a matching window is always accepted. -/
theorem waitForString_restart_scan (K : Codes) (cfg : Config) (str : List Nat) (c : Client)
    (hne : str ≠ []) (hz : 0 ∉ str) :
    (∃ c1, waitForString K cfg str c =
      some (if (scanRest cfg str c.remaining 0).isSome then K.E_OK else K.E_DISCONNECTED, c1)) ∧
    ((scanRest cfg str c.remaining 0).isSome = true →
      WindowMatch cfg.case_insensitive str c.remaining) ∧
    (∀ w rest, c.remaining = w ++ rest → List.Forall₂ (byteMatches cfg.case_insensitive) w str →
      (scanRest cfg str c.remaining 0).isSome = true) := by
  obtain ⟨hA, hB⟩ := waitForString_spec K cfg str c hne hz
  refine ⟨?_, ?_, ?_⟩
  · cases hs : scanRest cfg str c.remaining 0 with
    | none =>
      obtain ⟨c1, h1, _⟩ := hB hs
      exact ⟨close c1, by simpa using h1⟩
    | some rest =>
      obtain ⟨c1, _, h1, _⟩ := hA rest hs
      exact ⟨c1, by simpa using h1⟩
  · intro hs
    obtain ⟨rest, hrest⟩ := Option.isSome_iff_exists.1 hs
    obtain ⟨pre, w1, he, hw⟩ := scanRest_window cfg str hz c.remaining 0 [] rest
      (List.length_pos.2 hne) (by simp) hrest
    exact ⟨pre, w1, rest, by simpa using he, hw⟩
  · intro w rest hrem hw
    rw [hrem, scanRest_of_window cfg str hz rest w 0 (List.length_pos.2 hne) (by simpa using hw)]
    rfl

/-- Witness for C1 (amended): the pattern `*a` on the stream `bab` in two bursts. -/
theorem waitForString_restart_scan_witness :
    ([42, 97] : List Nat) ≠ [] ∧ 0 ∉ ([42, 97] : List Nat) ∧
    ((∃ c1, waitForString sampleCodes sampleConfig [42, 97] (Client.ofStream [98] [[97, 98]]) =
      some (if (scanRest sampleConfig [42, 97] (Client.ofStream [98] [[97, 98]]).remaining 0).isSome
        then sampleCodes.E_OK else sampleCodes.E_DISCONNECTED, c1)) ∧
    ((scanRest sampleConfig [42, 97] (Client.ofStream [98] [[97, 98]]).remaining 0).isSome = true →
      WindowMatch sampleConfig.case_insensitive [42, 97] (Client.ofStream [98] [[97, 98]]).remaining) ∧
    (∀ w rest, (Client.ofStream [98] [[97, 98]]).remaining = w ++ rest →
      List.Forall₂ (byteMatches sampleConfig.case_insensitive) w [42, 97] →
      (scanRest sampleConfig [42, 97] (Client.ofStream [98] [[97, 98]]).remaining 0).isSome = true)) :=
  ⟨by decide, by decide,
    waitForString_restart_scan sampleCodes sampleConfig [42, 97] (Client.ofStream [98] [[97, 98]])
      (by decide) (by decide)⟩

/-! ## C2: the status code -/

/-- C2: when the stream begins with `HTTP/` v1 `.` v2 ` ` d1 d2 d3 (v1, v2 any
bytes, the d decimal digits), in whatever bursts it arrives, `readStatusCode`
returns 100*d1 + 10*d2 + d3 and has read exactly the bytes up to and including d3. -/
theorem readStatusCode_status_line (K : Codes) (cfg : Config) (closeClient : Bool) (c : Client)
    (v1 v2 d1 d2 d3 : Nat) (rest : List Nat)
    (_h1 : d1 ≤ 9) (_h2 : d2 ≤ 9) (_h3 : d3 ≤ 9)
    (h : c.remaining =
      [72, 84, 84, 80, 47, v1, 46, v2, 32, 48 + d1, 48 + d2, 48 + d3] ++ rest) :
    ∃ c1, readStatusCode K cfg closeClient c =
        some (100 * (d1 : Int) + 10 * (d2 : Int) + (d3 : Int), if closeClient then close c1 else c1) ∧
      Reads c [72, 84, 84, 80, 47, v1, 46, v2, 32, 48 + d1, 48 + d2, 48 + d3] c1 ∧
      c1.remaining = rest :=
  readStatusCode_head K cfg closeClient c v1 v2 d1 d2 d3 rest _h1 _h2 _h3 h

/-- Witness for C2: `HTTP/1.1 200 OK` followed by CR LF, split inside the code. -/
theorem readStatusCode_status_line_witness :
    (2 ≤ 9 ∧ 0 ≤ 9 ∧ 0 ≤ 9 ∧
      (Client.ofStream [72, 84, 84, 80] [[47, 49, 46, 49, 32, 50], [48, 48, 32, 79, 75, 13, 10]]).remaining =
        [72, 84, 84, 80, 47, 49, 46, 49, 32, 48 + 2, 48 + 0, 48 + 0] ++ [32, 79, 75, 13, 10]) ∧
    ∃ c1, readStatusCode sampleCodes sampleConfig false
        (Client.ofStream [72, 84, 84, 80] [[47, 49, 46, 49, 32, 50], [48, 48, 32, 79, 75, 13, 10]]) =
        some (100 * ((2 : Nat) : Int) + 10 * ((0 : Nat) : Int) + ((0 : Nat) : Int),
          if false then close c1 else c1) ∧
      Reads (Client.ofStream [72, 84, 84, 80] [[47, 49, 46, 49, 32, 50], [48, 48, 32, 79, 75, 13, 10]])
        [72, 84, 84, 80, 47, 49, 46, 49, 32, 48 + 2, 48 + 0, 48 + 0] c1 ∧
      c1.remaining = [32, 79, 75, 13, 10] :=
  ⟨⟨by decide, by decide, by decide, by decide⟩,
    readStatusCode_status_line sampleCodes sampleConfig false
      (Client.ofStream [72, 84, 84, 80] [[47, 49, 46, 49, 32, 50], [48, 48, 32, 79, 75, 13, 10]])
      49 49 2 0 0 [32, 79, 75, 13, 10] (by decide) (by decide) (by decide) (by decide)⟩

/-! ## C3: the content length -/

/-- C3 (as stated, refuted): in `CContent-Length: 5` CR LF the header name is
followed by the digit run `5` and a carriage return, yet `readContentLength`
returns `E_DISCONNECTED`; in `Content-Length: 0` CR LF one digit is accumulated
before the terminator, yet it returns `E_INVALID` and not the value 0. -/
theorem readContentLength_misses_header :
    (readContentLength sampleCodes sampleConfig
        (Client.ofStream ([67] ++ contentLengthPattern ++ [53] ++ [13, 10]) [])).map Prod.fst
      = some sampleCodes.E_DISCONNECTED ∧
    decimalValue [53] = 5 ∧ sampleCodes.E_DISCONNECTED ≠ 5 ∧
    (readContentLength sampleCodes sampleConfig
        (Client.ofStream (contentLengthPattern ++ [48] ++ [13, 10]) [])).map Prod.fst
      = some sampleCodes.E_INVALID ∧
    decimalValue [48] = 0 ∧ sampleCodes.E_INVALID ≠ 0 := by
  refine ⟨by decide, by decide, by decide, by decide, by decide, by decide⟩

/-- C3 (amended): when the header name `Content-Length: ` stands at the start
of the stream or of a line, no earlier window of the stream matches it, and it
is followed by a run of decimal digits whose value fits a 32-bit signed integer
and then a carriage return or line feed, `readContentLength` reads exactly up
to and including that terminator; it returns the decimal value of the run when
that value is not zero, and `E_INVALID` when the run is empty. -/
theorem readContentLength_value (K : Codes) (cfg : Config) (c : Client)
    (pre ds rest : List Nat) (t : Nat)
    (hline : EndsLine pre)
    (hfirst : ¬ WindowMatch cfg.case_insensitive contentLengthPattern pre)
    (hds : IsDigits ds) (hfit : decimalValue ds < 2147483648) (ht : t = 13 ∨ t = 10)
    (h : c.remaining = pre ++ contentLengthPattern ++ ds ++ t :: rest) :
    ∃ c1, Reads c (pre ++ contentLengthPattern ++ ds ++ [t]) c1 ∧ c1.remaining = rest ∧
      (decimalValue ds ≠ 0 → readContentLength K cfg c = some ((decimalValue ds : Int), c1)) ∧
      (ds = [] → readContentLength K cfg c = some (K.E_INVALID, c1)) := by
  obtain ⟨c1, hr, hrem, hres⟩ :=
    readContentLength_header K cfg c pre ds rest t hline hfirst hds hfit ht h
  refine ⟨c1, hr, hrem, ?_, ?_⟩
  · intro hv
    rw [hres, if_neg hv]
  · intro hnil
    rw [hres, hnil]
    simp [decimalValue, decimalFrom]

/-- Witness for C3 (amended): after `OK` CR LF the header `Content-Length: 12`
with CR LF, in three bursts. -/
theorem readContentLength_value_witness :
    (EndsLine [79, 75, 13, 10] ∧
      ¬ WindowMatch sampleConfig.case_insensitive contentLengthPattern [79, 75, 13, 10] ∧
      IsDigits [49, 50] ∧ decimalValue [49, 50] < 2147483648 ∧ ((13 : Nat) = 13 ∨ (13 : Nat) = 10) ∧
      sampleLengthClient.remaining = [79, 75, 13, 10] ++ contentLengthPattern ++ [49, 50] ++ 13 :: [10]) ∧
    ∃ c1, Reads sampleLengthClient ([79, 75, 13, 10] ++ contentLengthPattern ++ [49, 50] ++ [13]) c1 ∧
      c1.remaining = [10] ∧
      (decimalValue [49, 50] ≠ 0 →
        readContentLength sampleCodes sampleConfig sampleLengthClient =
          some ((decimalValue [49, 50] : Int), c1)) ∧
      (([49, 50] : List Nat) = [] →
        readContentLength sampleCodes sampleConfig sampleLengthClient =
          some (sampleCodes.E_INVALID, c1)) :=
  ⟨⟨Or.inr rfl, not_windowMatch_of_short _ _ _ (by decide), by unfold IsDigits; decide, by decide,
      Or.inl rfl, by decide⟩,
    readContentLength_value sampleCodes sampleConfig sampleLengthClient [79, 75, 13, 10] [49, 50]
      [10] 13 (Or.inr rfl) (not_windowMatch_of_short _ _ _ (by decide)) (by unfold IsDigits; decide)
      (by decide) (Or.inl rfl) (by decide)⟩

/-! ## C4: peer closing inside the body -/

/-- C4 (the code at the failing input): the response declares `Content-Length: 5`
and the peer closes after the two body bytes `12`.  `readStreamValue`,
`readLocation(callback, context)` and `getTimestamp` all return
`E_NOCONNECTION`, the code of a failed connect, where the claim has
`E_DISCONNECTED`. -/
theorem body_loops_return_no_connection :
    (readStreamValue sampleCodes sampleConfig acceptAll
        (Client.ofStream [] [bytes "Content-Length: 5\r\n\r\n12"])).map (fun r => r.1)
      = some sampleCodes.E_NOCONNECTION ∧
    (readLocationBody sampleCodes sampleConfig acceptAll
        (Client.ofStream [] [bytes "Content-Length: 5\r\n\r\n12"])).map (fun r => r.1)
      = some sampleCodes.E_NOCONNECTION ∧
    (getTimestamp sampleCodes sampleConfig (fun _ => 0) (some 20)
        (Client.ofStream [] [bytes "HTTP/1.1 200 OK\r\nContent-Length: 5\r\n\r\n12"])).map
        (fun r => r.status)
      = some sampleCodes.E_NOCONNECTION ∧
    sampleCodes.E_NOCONNECTION ≠ sampleCodes.E_DISCONNECTED := by
  refine ⟨by decide, by decide, by decide, by decide⟩

/-! ## C5: propagation of body errors -/

/-- C5 (the code at the failing input): the status line says 200 and the peer
closes before any `Content-Length` header, so the body stage fails with
`E_DISCONNECTED`; `listStreamValues` and `readLocation` return 200. -/
theorem public_read_drops_body_error :
    ((readStatusCode sampleCodes sampleConfig false
        (Client.ofStream [] [bytes "HTTP/1.1 200 OK\r\n\r\n"])).bind
        (fun r => (readStreamValue sampleCodes sampleConfig acceptAll r.2).map (fun b => (r.1, b.1))))
      = some (200, sampleCodes.E_DISCONNECTED) ∧
    (listStreamValues sampleCodes sampleConfig acceptAll (bytes "dev") (bytes "temp") none
        (Client.ofStream [] [bytes "HTTP/1.1 200 OK\r\n\r\n"])).map (fun r => r.1)
      = some 200 ∧
    ((readStatusCode sampleCodes sampleConfig false
        (Client.ofStream [] [bytes "HTTP/1.1 200 OK\r\n\r\n"])).bind
        (fun r => (readLocationBody sampleCodes sampleConfig acceptAll r.2).map (fun b => (r.1, b.1))))
      = some (200, sampleCodes.E_DISCONNECTED) ∧
    (readLocation sampleCodes sampleConfig acceptAll (bytes "dev")
        (Client.ofStream [] [bytes "HTTP/1.1 200 OK\r\n\r\n"])).map (fun r => r.1)
      = some 200 := by
  refine ⟨by decide, by decide, by decide, by decide⟩

/-! ## C6: release of the socket -/

/-- C6 (the code at the failing input): the response declares a body of 10
bytes and the caller's buffer holds 2; `getTimestamp` returns
`E_BUFFER_TOO_SMALL` after a successful connect with the socket neither flushed
nor stopped. -/
theorem getTimestamp_too_small_leaves_socket_open :
    (getTimestamp sampleCodes sampleConfig (fun _ => 0) (some 2)
        (Client.ofStream [] [bytes "HTTP/1.1 200 OK\r\nContent-Length: 10\r\n\r\n1445000000"])).map
        (fun r => (r.status, r.client.released, r.client.calls))
      = some (sampleCodes.E_BUFFER_TOO_SMALL, false, [SockCall.connect]) := by
  decide

/-! ## C7: buffer too small -/

/-- C8: when `connect` fails, `listStreamValues`, `readLocation`, `deleteValues`
and `getTimestamp` (with a non-null `bufferLength`) return `E_NOCONNECTION`,
and the socket has neither been written to nor read from. -/
theorem connect_failure_returns_no_connection {P : Type} (K : Codes) (cfg : Config)
    (T : Tokenizer P) (deviceId streamName fromTs endTs : List Nat) (query : Option (List Nat))
    (buffer : Nat → Nat) (bufLen : Int) (c : Client) (h : c.connectOk = false) :
    (∃ c1, listStreamValues K cfg T deviceId streamName query c = some (K.E_NOCONNECTION, c1) ∧
      c1.tx = c.tx ∧ c1.consumed = c.consumed ∧ c1.remaining = c.remaining) ∧
    (∃ c1, readLocation K cfg T deviceId c = some (K.E_NOCONNECTION, c1) ∧
      c1.tx = c.tx ∧ c1.consumed = c.consumed ∧ c1.remaining = c.remaining) ∧
    (∃ c1, deleteValues K cfg deviceId streamName fromTs endTs c = some (K.E_NOCONNECTION, c1) ∧
      c1.tx = c.tx ∧ c1.consumed = c.consumed ∧ c1.remaining = c.remaining) ∧
    (∃ c1, getTimestamp K cfg buffer (some bufLen) c =
        some ⟨K.E_NOCONNECTION, buffer, some bufLen, c1⟩ ∧
      c1.tx = c.tx ∧ c1.consumed = c.consumed ∧ c1.remaining = c.remaining) := by
  refine ⟨⟨c.connect.2, ?_, rfl, rfl, rfl⟩, ⟨c.connect.2, ?_, rfl, rfl, rfl⟩,
    ⟨c.connect.2, ?_, rfl, rfl, rfl⟩, ⟨c.connect.2, ?_, rfl, rfl, rfl⟩⟩
  · simp [listStreamValues, Client.connect, h]
  · simp [readLocation, Client.connect, h]
  · simp [deleteValues, Client.connect, h]
  · simp [getTimestamp, Client.connect, h]

/-- Witness for C8: a socket whose `connect` fails. -/
theorem connect_failure_returns_no_connection_witness :
    ({ Client.ofStream [] [[72]] with connectOk := false } : Client).connectOk = false ∧
    ((∃ c1, listStreamValues sampleCodes sampleConfig acceptAll [100] [115] none
        { Client.ofStream [] [[72]] with connectOk := false } = some (sampleCodes.E_NOCONNECTION, c1) ∧
      c1.tx = ({ Client.ofStream [] [[72]] with connectOk := false } : Client).tx ∧
      c1.consumed = ({ Client.ofStream [] [[72]] with connectOk := false } : Client).consumed ∧
      c1.remaining = ({ Client.ofStream [] [[72]] with connectOk := false } : Client).remaining) ∧
    (∃ c1, readLocation sampleCodes sampleConfig acceptAll [100]
        { Client.ofStream [] [[72]] with connectOk := false } = some (sampleCodes.E_NOCONNECTION, c1) ∧
      c1.tx = ({ Client.ofStream [] [[72]] with connectOk := false } : Client).tx ∧
      c1.consumed = ({ Client.ofStream [] [[72]] with connectOk := false } : Client).consumed ∧
      c1.remaining = ({ Client.ofStream [] [[72]] with connectOk := false } : Client).remaining) ∧
    (∃ c1, deleteValues sampleCodes sampleConfig [100] [115] [49] [50]
        { Client.ofStream [] [[72]] with connectOk := false } = some (sampleCodes.E_NOCONNECTION, c1) ∧
      c1.tx = ({ Client.ofStream [] [[72]] with connectOk := false } : Client).tx ∧
      c1.consumed = ({ Client.ofStream [] [[72]] with connectOk := false } : Client).consumed ∧
      c1.remaining = ({ Client.ofStream [] [[72]] with connectOk := false } : Client).remaining) ∧
    (∃ c1, getTimestamp sampleCodes sampleConfig (fun _ => 0) (some 20)
        { Client.ofStream [] [[72]] with connectOk := false } =
        some ⟨sampleCodes.E_NOCONNECTION, fun _ => 0, some 20, c1⟩ ∧
      c1.tx = ({ Client.ofStream [] [[72]] with connectOk := false } : Client).tx ∧
      c1.consumed = ({ Client.ofStream [] [[72]] with connectOk := false } : Client).consumed ∧
      c1.remaining = ({ Client.ofStream [] [[72]] with connectOk := false } : Client).remaining)) :=
  ⟨rfl, connect_failure_returns_no_connection sampleCodes sampleConfig acceptAll [100] [115] [49] [50]
    none (fun _ => 0) 20 { Client.ofStream [] [[72]] with connectOk := false } rfl⟩

/-! ## C9: bytes read for the body -/

/-- C9 (the code at the failing input): the response declares `Content-Length: 1`
and two body bytes `12` are available; with a tokenizer that accepts every
chunk `readStreamValue` and `readLocation(callback, context)` return `E_OK`
having read both bytes after the blank line. -/
theorem json_body_reads_past_length :
    (readStreamValue sampleCodes sampleConfig acceptAll
        (Client.ofStream [] [bytes "Content-Length: 1\r\n\r\n12"])).map (fun r => (r.1, r.2.1.consumed))
      = some (sampleCodes.E_OK, bytes "Content-Length: 1\r\n\r\n" ++ [49, 50]) ∧
    (readLocationBody sampleCodes sampleConfig acceptAll
        (Client.ofStream [] [bytes "Content-Length: 1\r\n\r\n12"])).map (fun r => (r.1, r.2.1.consumed))
      = some (sampleCodes.E_OK, bytes "Content-Length: 1\r\n\r\n" ++ [49, 50]) := by
  refine ⟨by decide, by decide⟩

/-! ## C10: the timestamp body -/

/-- C11 (the code at the failing input): where plain `char` is signed, the byte
`0xE9` is the `char` -23, so `str[i] / 16` is -1 and `str[i] % 16` is -7, and
`print_encoded_string` sends `%` followed by `TO_HEX(-1)` and `TO_HEX(-7)`, which
is not `%E9`.  The byte `0xF0` gives the same quotient -1, so the digit sent
first is the same for both bytes, whatever the macro gives at -1.  Where plain
`char` is unsigned the byte is sent as `%E9`. -/
theorem print_encoded_string_signed_char :
    charValue true 0xE9 = -23 ∧
    Int.tdiv (charValue true 0xE9) 16 = -1 ∧ Int.tmod (charValue true 0xE9) 16 = -7 ∧
    Int.tdiv (charValue true 0xF0) 16 = -1 ∧ Int.tmod (charValue true 0xF0) 16 = 0 ∧
    (print_encoded_string true clientPrint (Client.ofStream [] []) [0xE9]).1.tx =
      [37, TO_HEX (-1), TO_HEX (-7)] ∧
    (print_encoded_string true clientPrint (Client.ofStream [] []) [0xF0]).1.tx =
      [37, TO_HEX (-1), TO_HEX 0] ∧
    (print_encoded_string true clientPrint (Client.ofStream [] []) [0xE9]).1.tx ≠
      percentEncodeSpec [0xE9] ∧
    percentEncodeSpec [0xE9] = bytes "%E9" ∧ percentEncodeSpec [0xF0] = bytes "%F0" ∧
    (print_encoded_string false clientPrint (Client.ofStream [] []) [0xE9]).1.tx = bytes "%E9" := by
  refine ⟨by decide, by decide, by decide, by decide, by decide, by decide, by decide,
    by decide, by decide, by decide, by decide⟩

/-! ## C12: the length of the delete body -/

/-- C12: after a successful connect `deleteValues` writes a `Content-Length`
header whose value is the byte length of the body it then writes; that body is
the JSON object with the members `from` and `end`, 20 + |from| + |end| bytes
long, and the dry run against the discarding sink returns the same count as the
run against the socket. -/
theorem deleteValues_content_length (K : Codes) (cfg : Config)
    (deviceId streamName fromTs endTs : List Nat) (c : Client) (hconn : c.connectOk = true) :
    (deleteBody fromTs endTs).length = 20 + fromTs.length + endTs.length ∧
    (write_delete_values nullPrint () fromTs endTs).2 = ((deleteBody fromTs endTs).length : Int) ∧
    (write_delete_values clientPrint
        (writeDeleteHeader K cfg deviceId streamName
          (write_delete_values nullPrint () fromTs endTs).2 (c.connect).2) fromTs endTs).2 =
      (write_delete_values nullPrint () fromTs endTs).2 ∧
    ∃ r c1 head, deleteValues K cfg deviceId streamName fromTs endTs c = some (r, c1) ∧
      c1.tx = c.tx ++ head ++ bytes "Content-Length: " ++
        decimal ((deleteBody fromTs endTs).length : Int) ++ [13, 10] ++ [13, 10] ++
        deleteBody fromTs endTs := by
  have hlen := deleteBody_length fromTs endTs
  refine ⟨hlen, ?_, ?_, ?_⟩
  · rw [write_delete_values_null, hlen]
  · rw [write_delete_values_client, write_delete_values_null]
  · have hc : c.connect = (true, (c.connect).2) := by simp [Client.connect, hconn]
    obtain ⟨r, c1, hres, htx⟩ := readStatusCode_total K cfg true
      (write_delete_values clientPrint (writeDeleteHeader K cfg deviceId streamName
        (write_delete_values nullPrint () fromTs endTs).2 (c.connect).2) fromTs endTs).1
    have hpos : ((20 + fromTs.length + endTs.length : Nat) : Int) > 0 := by
      push_cast; omega
    refine ⟨r, c1, bytes "DELETE /v2/devices/" ++ percentEncode K.charSigned deviceId ++
        bytes "/streams/" ++ percentEncode K.charSigned streamName ++ bytes "/values" ++ bytes " HTTP/1.0" ++
        [13, 10] ++ (K.USER_AGENT ++ [13, 10] ++ bytes "X-M2X-KEY: " ++ cfg.key ++ [13, 10] ++
        bytes "Host: " ++ percentEncode K.charSigned cfg.host ++
        (if cfg.port ≠ K.kDefaultM2XPort then bytes ":" ++ decimal cfg.port else []) ++ [13, 10] ++
        (bytes "Content-Type: application/json" ++ [13, 10])), ?_, ?_⟩
    · unfold deleteValues
      rw [hc]
      exact hres
    · rw [htx, write_delete_values_client, write_delete_values_null, writeDeleteHeader_eq, hlen]
      simp only [httpHeaderBytes, if_pos hpos]
      simp [Client.connect]

/-- Witness for C12: deleting between two timestamps on a connected socket. -/
theorem deleteValues_content_length_witness :
    (Client.ofStream [] [bytes "HTTP/1.1 204 No Content\r\n\r\n"]).connectOk = true ∧
    ((deleteBody (bytes "2015-01-01") (bytes "2015-02-01")).length =
        20 + (bytes "2015-01-01").length + (bytes "2015-02-01").length ∧
    (write_delete_values nullPrint () (bytes "2015-01-01") (bytes "2015-02-01")).2 =
      ((deleteBody (bytes "2015-01-01") (bytes "2015-02-01")).length : Int) ∧
    (write_delete_values clientPrint
        (writeDeleteHeader sampleCodes sampleConfig (bytes "dev") (bytes "temp")
          (write_delete_values nullPrint () (bytes "2015-01-01") (bytes "2015-02-01")).2
          ((Client.ofStream [] [bytes "HTTP/1.1 204 No Content\r\n\r\n"]).connect).2)
        (bytes "2015-01-01") (bytes "2015-02-01")).2 =
      (write_delete_values nullPrint () (bytes "2015-01-01") (bytes "2015-02-01")).2 ∧
    ∃ r c1 head, deleteValues sampleCodes sampleConfig (bytes "dev") (bytes "temp")
          (bytes "2015-01-01") (bytes "2015-02-01")
          (Client.ofStream [] [bytes "HTTP/1.1 204 No Content\r\n\r\n"]) = some (r, c1) ∧
      c1.tx = (Client.ofStream [] [bytes "HTTP/1.1 204 No Content\r\n\r\n"]).tx ++ head ++
        bytes "Content-Length: " ++
        decimal ((deleteBody (bytes "2015-01-01") (bytes "2015-02-01")).length : Int) ++
        [13, 10] ++ [13, 10] ++ deleteBody (bytes "2015-01-01") (bytes "2015-02-01")) :=
  ⟨rfl, deleteValues_content_length sampleCodes sampleConfig (bytes "dev") (bytes "temp")
    (bytes "2015-01-01") (bytes "2015-02-01")
    (Client.ofStream [] [bytes "HTTP/1.1 204 No Content\r\n\r\n"]) rfl⟩

/-! ## C13: the request headers -/

set_option maxRecDepth 100000 in
/-- C13 (as stated, refuted): with the host `[::1]` configured, `writeHttpHeader`
sends `Host: %5B%3A%3A1%5D`; the host bytes do not appear unchanged. -/
theorem writeHttpHeader_encodes_host :
    (writeHttpHeader sampleCodes { sampleConfig with host := bytes "[::1]" } (-1)
        (Client.ofStream [] [])).tx =
      bytes "User-Agent: M2X Arduino Client\r\nX-M2X-KEY: 0123456789abcdef\r\n" ++
        bytes "Host: %5B%3A%3A1%5D\r\n\r\n" ∧
    ¬ (bytes "Host: [::1]" <:+:
      (writeHttpHeader sampleCodes { sampleConfig with host := bytes "[::1]" } (-1)
        (Client.ofStream [] [])).tx) := by
  refine ⟨by decide, by decide⟩

/-- C13 (amended): for every host, key and port `writeHttpHeader` sends the user
agent line, `X-M2X-KEY: ` with the key bytes unchanged, `Host: ` with the
percent-encoding of the host bytes, then `:` and the decimal port exactly when
the port differs from the default port, the end of that line, the
`Content-Type` and `Content-Length` lines exactly when the content length is
positive, and an empty line. -/
theorem writeHttpHeader_lines (K : Codes) (cfg : Config) (contentLength : Int) (c : Client) :
    (writeHttpHeader K cfg contentLength c).tx = c.tx ++
      (K.USER_AGENT ++ [13, 10] ++ bytes "X-M2X-KEY: " ++ cfg.key ++ [13, 10] ++
        bytes "Host: " ++ percentEncode K.charSigned cfg.host ++
        (if cfg.port ≠ K.kDefaultM2XPort then bytes ":" ++ decimal cfg.port else []) ++ [13, 10] ++
        (if contentLength > 0 then
          bytes "Content-Type: application/json" ++ [13, 10] ++
            bytes "Content-Length: " ++ decimal contentLength ++ [13, 10]
        else []) ++ [13, 10]) := by
  rw [writeHttpHeader_eq]
  rfl

/-! ## C14: the request line of listStreamValues -/

/-- C14: once connected, `listStreamValues` writes the request line
`GET /v2/devices/` enc(deviceId) `/streams/` enc(streamName) `/values` Q
` HTTP/1.0` CR LF, followed by the headers, where enc is the percent-encoder
and Q is empty without a query, the query itself when it starts with `?`, and
`?` followed by the query otherwise; whenever the operation returns, these are
the bytes it has written. -/
theorem listStreamValues_request_line {P : Type} (K : Codes) (cfg : Config) (T : Tokenizer P)
    (deviceId streamName : List Nat) (query : Option (List Nat)) (c : Client)
    (hconn : c.connectOk = true) :
    (listStreamValuesRequest K cfg deviceId streamName query (c.connect).2).tx = c.tx ++
      (bytes "GET /v2/devices/" ++ percentEncode K.charSigned deviceId ++ bytes "/streams/" ++
        percentEncode K.charSigned streamName ++ bytes "/values" ++ queryPart query ++
        bytes " HTTP/1.0" ++ [13, 10] ++ httpHeaderBytes K cfg (-1)) ∧
    ∀ (r : Int) (c1 : Client),
      listStreamValues K cfg T deviceId streamName query c = some (r, c1) →
      c1.tx = c.tx ++
        (bytes "GET /v2/devices/" ++ percentEncode K.charSigned deviceId ++ bytes "/streams/" ++
          percentEncode K.charSigned streamName ++ bytes "/values" ++ queryPart query ++
          bytes " HTTP/1.0" ++ [13, 10] ++ httpHeaderBytes K cfg (-1)) := by
  have h1 : (listStreamValuesRequest K cfg deviceId streamName query (c.connect).2).tx = c.tx ++
      (bytes "GET /v2/devices/" ++ percentEncode K.charSigned deviceId ++ bytes "/streams/" ++
        percentEncode K.charSigned streamName ++ bytes "/values" ++ queryPart query ++
        bytes " HTTP/1.0" ++ [13, 10] ++ httpHeaderBytes K cfg (-1)) := by
    rw [listStreamValuesRequest_eq]
    rfl
  refine ⟨h1, fun r c1 h => ?_⟩
  rw [listStreamValues_tx K cfg T deviceId streamName query c hconn r c1 h, h1]

/-- Witness for C14: the query `limit=2` given without its question mark. -/
theorem listStreamValues_request_line_witness :
    (Client.ofStream [] [bytes "HTTP/1.1 404 Not Found\r\n\r\n"]).connectOk = true ∧
    ((listStreamValuesRequest sampleCodes sampleConfig (bytes "my dev") (bytes "temp")
        (some (bytes "limit=2"))
        ((Client.ofStream [] [bytes "HTTP/1.1 404 Not Found\r\n\r\n"]).connect).2).tx =
      (Client.ofStream [] [bytes "HTTP/1.1 404 Not Found\r\n\r\n"]).tx ++
      (bytes "GET /v2/devices/" ++ percentEncode sampleCodes.charSigned (bytes "my dev") ++
        bytes "/streams/" ++ percentEncode sampleCodes.charSigned (bytes "temp") ++
        bytes "/values" ++ queryPart (some (bytes "limit=2")) ++
        bytes " HTTP/1.0" ++ [13, 10] ++ httpHeaderBytes sampleCodes sampleConfig (-1)) ∧
    ∀ (r : Int) (c1 : Client),
      listStreamValues sampleCodes sampleConfig acceptAll (bytes "my dev") (bytes "temp")
        (some (bytes "limit=2")) (Client.ofStream [] [bytes "HTTP/1.1 404 Not Found\r\n\r\n"]) =
        some (r, c1) →
      c1.tx = (Client.ofStream [] [bytes "HTTP/1.1 404 Not Found\r\n\r\n"]).tx ++
        (bytes "GET /v2/devices/" ++ percentEncode sampleCodes.charSigned (bytes "my dev") ++
          bytes "/streams/" ++ percentEncode sampleCodes.charSigned (bytes "temp") ++
          bytes "/values" ++ queryPart (some (bytes "limit=2")) ++
          bytes " HTTP/1.0" ++ [13, 10] ++ httpHeaderBytes sampleCodes sampleConfig (-1))) :=
  ⟨rfl, listStreamValues_request_line sampleCodes sampleConfig acceptAll (bytes "my dev")
    (bytes "temp") (some (bytes "limit=2"))
    (Client.ofStream [] [bytes "HTTP/1.1 404 Not Found\r\n\r\n"]) rfl⟩

/-! ## C15: the range of the status code -/

/-- C16: whenever `waitForString` returns `E_OK` on a non-empty pattern, the
bytes it has read end with a window that matches the pattern position by
position, and nothing after that window has been read: what the socket still
holds starts with the byte right after the match. -/
theorem waitForString_ok_window (K : Codes) (cfg : Config) (str : List Nat) (c c1 : Client)
    (hne : str ≠ []) (hz : 0 ∉ str) (hcodes : K.E_OK ≠ K.E_DISCONNECTED)
    (h : waitForString K cfg str c = some (K.E_OK, c1)) :
    ∃ pre w, List.Forall₂ (byteMatches cfg.case_insensitive) w str ∧
      c1.consumed = c.consumed ++ (pre ++ w) ∧ c.remaining = (pre ++ w) ++ c1.remaining := by
  obtain ⟨hA, hB⟩ := waitForString_spec K cfg str c hne hz
  cases hs : scanRest cfg str c.remaining 0 with
  | none =>
    obtain ⟨c2, h2, _⟩ := hB hs
    rw [h2] at h
    simp only [Option.some.injEq, Prod.mk.injEq] at h
    exact absurd h.1.symm hcodes
  | some rest =>
    obtain ⟨c2, pre2, h2, hr, hrem⟩ := hA rest hs
    rw [h2] at h
    simp only [Option.some.injEq, Prod.mk.injEq, true_and] at h
    subst h
    obtain ⟨p, w, hsplit, hw⟩ := scanRest_window cfg str hz c.remaining 0 [] rest
      (List.length_pos.2 hne) (by simp) hs
    have hp : pre2 = p ++ w := hr.pre_eq hrem (by simpa using hsplit)
    exact ⟨p, w, hw, hp ▸ hr.consumed, hp ▸ hr.remaining⟩

/-- Witness for C16: the pattern `*a` found in `bab`, delivered in two bursts. -/
theorem waitForString_ok_window_witness :
    (([42, 97] : List Nat) ≠ [] ∧ 0 ∉ ([42, 97] : List Nat) ∧
      sampleCodes.E_OK ≠ sampleCodes.E_DISCONNECTED ∧
      waitForString sampleCodes sampleConfig [42, 97] (Client.ofStream [98] [[97, 98]]) =
        some (sampleCodes.E_OK,
          { Client.ofStream [98] [] with consumed := [98, 97] })) ∧
    ∃ pre w, List.Forall₂ (byteMatches sampleConfig.case_insensitive) w [42, 97] ∧
      ({ Client.ofStream [98] [] with consumed := [98, 97] } : Client).consumed =
        (Client.ofStream [98] [[97, 98]]).consumed ++ (pre ++ w) ∧
      (Client.ofStream [98] [[97, 98]]).remaining =
        (pre ++ w) ++ ({ Client.ofStream [98] [] with consumed := [98, 97] } : Client).remaining :=
  ⟨⟨by decide, by decide, by decide, by decide⟩,
    waitForString_ok_window sampleCodes sampleConfig [42, 97] (Client.ofStream [98] [[97, 98]])
      { Client.ofStream [98] [] with consumed := [98, 97] } (by decide) (by decide) (by decide)
      (by decide)⟩

/-! ## C17: independence of the bursts -/

/-- C17: for every pattern, the value returned by `waitForString` and the bytes
it reads are the same for any two ways of delivering the same byte sequence in
bursts before the peer closes. -/
theorem waitForString_burst_independent (K : Codes) (cfg : Config) (str : List Nat)
    (c c2 : Client) (hz : 0 ∉ str) (h : c.remaining = c2.remaining) :
    ∃ r pre c1 c3, waitForString K cfg str c = some (r, c1) ∧
      waitForString K cfg str c2 = some (r, c3) ∧
      c1.consumed = c.consumed ++ pre ∧ c3.consumed = c2.consumed ++ pre := by
  by_cases hne : str = []
  · subst hne
    exact ⟨K.E_OK, [], c, c2, by simp [waitForString, cstrAt], by simp [waitForString, cstrAt],
      by simp, by simp⟩
  · obtain ⟨hA, hB⟩ := waitForString_spec K cfg str c hne hz
    obtain ⟨hA2, hB2⟩ := waitForString_spec K cfg str c2 hne hz
    cases hs : scanRest cfg str c.remaining 0 with
    | none =>
      obtain ⟨c1, h1, hr1, _⟩ := hB hs
      obtain ⟨c3, h3, hr3, _⟩ := hB2 (h ▸ hs)
      refine ⟨K.E_DISCONNECTED, c.remaining, close c1, close c3, h1, h3, hr1.consumed, ?_⟩
      rw [h]; exact hr3.consumed
    | some rest =>
      obtain ⟨c1, pre1, h1, hr1, hrem1⟩ := hA rest hs
      obtain ⟨c3, pre3, h3, hr3, hrem3⟩ := hA2 rest (h ▸ hs)
      have hp : pre3 = pre1 := by
        have e1 := hr1.remaining
        have e3 := hr3.remaining
        rw [hrem1] at e1
        rw [hrem3, ← h, e1] at e3
        exact (List.append_cancel_right e3).symm
      exact ⟨K.E_OK, pre1, c1, c3, h1, h3, hr1.consumed, hp ▸ hr3.consumed⟩

/-- Witness for C17: `HTTP/1.1 ` delivered at once and delivered in three bursts. -/
theorem waitForString_burst_independent_witness :
    (0 ∉ statusPattern ∧
      (Client.ofStream (bytes "HTTP/1.1 200") []).remaining =
        (Client.ofStream (bytes "HT") [bytes "TP/1", [], bytes ".1 200"]).remaining) ∧
    ∃ r pre c1 c3,
      waitForString sampleCodes sampleConfig statusPattern (Client.ofStream (bytes "HTTP/1.1 200") [])
        = some (r, c1) ∧
      waitForString sampleCodes sampleConfig statusPattern
        (Client.ofStream (bytes "HT") [bytes "TP/1", [], bytes ".1 200"]) = some (r, c3) ∧
      c1.consumed = (Client.ofStream (bytes "HTTP/1.1 200") []).consumed ++ pre ∧
      c3.consumed = (Client.ofStream (bytes "HT") [bytes "TP/1", [], bytes ".1 200"]).consumed ++ pre :=
  ⟨⟨by decide, by decide⟩,
    waitForString_burst_independent sampleCodes sampleConfig statusPattern
      (Client.ofStream (bytes "HTTP/1.1 200") [])
      (Client.ofStream (bytes "HT") [bytes "TP/1", [], bytes ".1 200"]) (by decide) (by decide)⟩

/-! ## C18: case sensitivity -/

/-- C18: with the case-insensitive flag set, replacing ASCII letters of the
stream or of the pattern by their other-case counterparts does not change what
`waitForString` returns; with the flag clear, a stream byte matches a pattern
byte other than the wildcard only when the two bytes are equal. -/
theorem waitForString_case_insensitive (K : Codes) (cfg : Config) (str str2 : List Nat)
    (c c2 : Client) (hci : cfg.case_insensitive = true) (hz : 0 ∉ str)
    (hstr : List.Forall₂ CaseVariant str str2)
    (hstream : List.Forall₂ CaseVariant c.remaining c2.remaining) :
    (waitForString K cfg str2 c2).map Prod.fst = (waitForString K cfg str c).map Prod.fst ∧
    ∀ (cfg0 : Config) (ch p : Nat), cfg0.case_insensitive = false → p ≠ 42 →
      charMatches cfg0 ch p = true → ch = p := by
  constructor
  · by_cases hne : str = []
    · subst hne
      cases hstr
      simp [waitForString, cstrAt]
    · have hne2 : str2 ≠ [] := by
        intro h2
        have := hstr.length_eq
        rw [h2] at this
        exact hne (List.length_eq_zero.1 (by simpa using this))
      rw [waitForString_code K cfg str c hne hz,
        waitForString_code K cfg str2 c2 hne2 (not_mem_zero_caseVariant hstr hz),
        scanRest_caseVariant cfg hci hstr hstream 0]
  · intro cfg0 ch p h0 hp hm
    have := (charMatches_iff cfg0 ch p).1 hm
    rw [h0] at this
    rcases this with h | h
    · exact absurd h hp
    · simpa using h

/-- Witness for C18: the pattern `Ok*` against `oK*`, the stream `xoKz` against `XOkz`. -/
theorem waitForString_case_insensitive_witness :
    (sampleConfigCI.case_insensitive = true ∧ 0 ∉ ([79, 107, 42] : List Nat) ∧
      List.Forall₂ CaseVariant [79, 107, 42] [111, 75, 42] ∧
      List.Forall₂ CaseVariant (Client.ofStream [120, 111, 75, 122] []).remaining
        (Client.ofStream [88, 79] [[107, 122]]).remaining) ∧
    ((waitForString sampleCodes sampleConfigCI [111, 75, 42]
        (Client.ofStream [88, 79] [[107, 122]])).map Prod.fst =
      (waitForString sampleCodes sampleConfigCI [79, 107, 42]
        (Client.ofStream [120, 111, 75, 122] [])).map Prod.fst ∧
    ∀ (cfg0 : Config) (ch p : Nat), cfg0.case_insensitive = false → p ≠ 42 →
      charMatches cfg0 ch p = true → ch = p) :=
  ⟨⟨rfl, by decide,
      List.Forall₂.cons (caseVariant_swap 79) (List.Forall₂.cons (caseVariant_swap 107)
        (List.Forall₂.cons (caseVariant_self 42) List.Forall₂.nil)),
      List.Forall₂.cons (caseVariant_swap 120) (List.Forall₂.cons (caseVariant_swap 111)
        (List.Forall₂.cons (caseVariant_swap 75) (List.Forall₂.cons (caseVariant_self 122)
          List.Forall₂.nil)))⟩,
    waitForString_case_insensitive sampleCodes sampleConfigCI [79, 107, 42] [111, 75, 42]
      (Client.ofStream [120, 111, 75, 122] []) (Client.ofStream [88, 79] [[107, 122]]) rfl
      (by decide)
      (List.Forall₂.cons (caseVariant_swap 79) (List.Forall₂.cons (caseVariant_swap 107)
        (List.Forall₂.cons (caseVariant_self 42) List.Forall₂.nil)))
      (List.Forall₂.cons (caseVariant_swap 120) (List.Forall₂.cons (caseVariant_swap 111)
        (List.Forall₂.cons (caseVariant_swap 75) (List.Forall₂.cons (caseVariant_self 122)
          List.Forall₂.nil))))⟩

/-! ## C19: the encoding read back -/

/-- C19: for two distinct strings of 7-bit ASCII bytes `print_encoded_string`
sends different bytes (the encoding can be read back), and every byte it sends
is an ASCII letter, digit, `-`, `_`, `.`, `~` or `%`. -/
theorem print_encoded_string_injective (sg : Bool) (c : Client) (s t : List Nat)
    (hs : ∀ b ∈ s, b < 128) (ht : ∀ b ∈ t, b < 128) (hne : s ≠ t) :
    (print_encoded_string sg clientPrint c s).1.tx ≠
      (print_encoded_string sg clientPrint c t).1.tx ∧
    percentDecode (percentEncode sg s) = s ∧
    ∃ out, (print_encoded_string sg clientPrint c s).1.tx = c.tx ++ out ∧
      ∀ x ∈ out, IsUnreservedByte x ∨ x = 37 := by
  have hs2 : ∀ b ∈ s, b < 256 ∧ (sg = true → b < 128) :=
    fun b hb => ⟨Nat.lt_trans (hs b hb) (by decide), fun _ => hs b hb⟩
  have ht2 : ∀ b ∈ t, b < 256 ∧ (sg = true → b < 128) :=
    fun b hb => ⟨Nat.lt_trans (ht b hb) (by decide), fun _ => ht b hb⟩
  refine ⟨?_, percentDecode_percentEncode sg s hs2, percentEncode sg s, ?_,
    percentEncode_safe sg s hs2⟩
  · rw [print_encoded_string_client, print_encoded_string_client]
    intro heq
    have h1 : percentEncode sg s = percentEncode sg t := List.append_cancel_left heq
    have h2 := congrArg percentDecode h1
    rw [percentDecode_percentEncode sg s hs2, percentDecode_percentEncode sg t ht2] at h2
    exact hne h2
  · rw [print_encoded_string_client]

/-- Witness for C19: the strings `a b` and `a%20b`. -/
theorem print_encoded_string_injective_witness :
    ((∀ b ∈ bytes "a b", b < 128) ∧ (∀ b ∈ bytes "a%20b", b < 128) ∧
      bytes "a b" ≠ bytes "a%20b") ∧
    ((print_encoded_string true clientPrint (Client.ofStream [] []) (bytes "a b")).1.tx ≠
      (print_encoded_string true clientPrint (Client.ofStream [] []) (bytes "a%20b")).1.tx ∧
    percentDecode (percentEncode true (bytes "a b")) = bytes "a b" ∧
    ∃ out, (print_encoded_string true clientPrint (Client.ofStream [] []) (bytes "a b")).1.tx =
        (Client.ofStream [] []).tx ++ out ∧
      ∀ x ∈ out, IsUnreservedByte x ∨ x = 37) :=
  ⟨⟨by decide, by decide, by decide⟩,
    print_encoded_string_injective true (Client.ofStream [] []) (bytes "a b") (bytes "a%20b")
      (by decide) (by decide) (by decide)⟩

/-! ## C20: the 32-bit timestamp -/

end M2X
